import Mathlib

/-!
# Verification of the Automaker memory/context engine

A shallow embedding of the memory-loader and context-loader modules
(frontmatter codec, term extraction, relevance scoring, usage tracking,
file locking, learning recorder) together with proofs about the claims
of the specification.

Modelling conventions:
* JavaScript strings are Lean `String`s; the scanning core works on
  `List Char`.
* JavaScript numbers are modelled as exact rationals (`ℚ`).  The only
  places where this differs from IEEE doubles are (a) decimal literals
  too long for a double, which a double would round, and (b) the very
  corner case `parseFloat` returning `NaN` (which only happens here for
  a dots-only `importance` token); in the model that corner keeps the
  default value.  All concrete inputs used in theorems are far away from
  either corner.
* The regular expressions of the source are modelled operationally,
  following JavaScript backtracking semantics (greedy `\s*`, greedy
  `\r?`, lazy `([\s\S]*?)`, leftmost search position first).
-/

-- The Batteries rational operations are `@[irreducible]`; unseal them so
-- that `decide` can evaluate concrete scores in the kernel.
attribute [local semireducible] Rat.add Rat.mul Rat.sub Rat.inv Rat.ofScientific

namespace Automaker

/-! ## JavaScript character classes and basic string helpers -/

/-- The JavaScript regex class `\s` (whitespace, including line breaks and
the Unicode space characters). -/
def isJsWS (c : Char) : Bool :=
  c = ' ' || c = '\t' || c = '\n' || c = '\x0b' || c = '\x0c' || c = '\r' ||
  c.val = 0xa0 || c.val = 0x1680 || (0x2000 ≤ c.val && c.val ≤ 0x200a) ||
  c.val = 0x2028 || c.val = 0x2029 || c.val = 0x202f || c.val = 0x205f ||
  c.val = 0x3000 || c.val = 0xfeff

/-- JavaScript line terminators: the characters *not* matched by `.`. -/
def isLineTerm (c : Char) : Bool :=
  c = '\n' || c = '\r' || c.val = 0x2028 || c.val = 0x2029

/-- Length of the maximal leading run of `\s` characters. -/
def wsRunLen : List Char → Nat
  | [] => 0
  | c :: t => if isJsWS c then wsRunLen t + 1 else 0

/-- `String.prototype.trim`: drop `\s` characters from both ends. -/
def jsTrimL (l : List Char) : List Char :=
  ((l.dropWhile isJsWS).reverse.dropWhile isJsWS).reverse

/-- `text.split(',')` on a character list: split at every comma, keeping
empty pieces (JavaScript `''.split(',')` is `['']`). -/
def splitComma : List Char → List (List Char)
  | [] => [[]]
  | c :: t =>
    match splitComma t with
    | [] => [[]]
    | p :: ps => if c = ',' then [] :: p :: ps else (c :: p) :: ps

/-- `.replace(/['"]/g, '')`: remove every single/double quote. -/
def removeQuotesL (l : List Char) : List Char :=
  l.filter (fun c => !(c = '\'' || c = '"'))

/-- `.replace(/^["']|["']$/g, '')`: remove one leading quote if present,
then one trailing quote from what remains. -/
def stripEdgeQuotesL (l : List Char) : List Char :=
  let l1 := match l with
    | c :: t => if c = '"' || c = '\'' then t else c :: t
    | [] => []
  match l1.getLast? with
  | some c => if c = '"' || c = '\'' then l1.dropLast else l1
  | none => l1

/-! ## The frontmatter block regex

`/^---\s*\r?\n([\s\S]*?)\r?\n---\s*\r?\n/` from `parseFrontmatter`.
The opening `\s*\r?\n` tries the largest whitespace consumption first;
the lazy group then looks for the earliest closing `\r?\n---\s*\r?\n`;
on failure the opener backtracks to a shorter whitespace run. -/

/-- Candidate consumed lengths for `\s*\r?\n` at the start of `l`: every
`e` such that the first `e` characters are whitespace and the `e`-th is a
newline, in decreasing order (JavaScript greedy preference). -/
def openEnds (l : List Char) : List Nat :=
  (((List.range (wsRunLen l)).map (· + 1)).filter
    (fun e => l.get? (e - 1) = some '\n')).reverse

/-- Index (within the leading whitespace run) of the last newline, if
any: this is what the trailing greedy `\s*\r?\n` of the closing
delimiter consumes up to. -/
def lastNlInRun (l : List Char) : Option Nat :=
  (((List.range (wsRunLen l)).filter (fun i => l.get? i = some '\n')).reverse).head?

/-- Match `\r?\n---\s*\r?\n` at the start of `u`; returns the number of
characters consumed. -/
def closeHere (u : List Char) : Option Nat :=
  match u with
  | '\r' :: '\n' :: '-' :: '-' :: '-' :: t =>
    (lastNlInRun t).map (fun i => 5 + i + 1)
  | '\n' :: '-' :: '-' :: '-' :: t =>
    (lastNlInRun t).map (fun i => 4 + i + 1)
  | _ => none

/-- Earliest position (lazy group) at which the closing delimiter
matches; returns the offset and the consumed length. -/
def findClose : List Char → Option (Nat × Nat)
  | [] => none
  | u@(_ :: t) =>
    match closeHere u with
    | some c => some (0, c)
    | none => (findClose t).map (fun jc => (jc.1 + 1, jc.2))

/-- Try the opening candidates in greedy order; for each, find the lazy
closing match.  Returns (captured group, text after the whole match). -/
def tryOpens (r : List Char) : List Nat → Option (List Char × List Char)
  | [] => none
  | e :: es =>
    match findClose (r.drop e) with
    | some jc => some (((r.drop e).take jc.1, (r.drop e).drop (jc.1 + jc.2)))
    | none => tryOpens r es

/-- The full frontmatter regex, anchored at the start.  Returns
`(group, remainder)` where `remainder` is the input minus `match[0]`. -/
def matchFrontmatterL (s : List Char) : Option (List Char × List Char) :=
  match s with
  | '-' :: '-' :: '-' :: r => tryOpens r (openEnds r)
  | _ => none

/-! ## The per-field regex searches

Each field regex is unanchored: JavaScript tries every start position
from the left.  `firstSome f l` runs the at-position matcher `f` on every
suffix of `l`, longest (leftmost) first. -/

/-- Leftmost-match driver: try `f` at each position of `l` in order. -/
def firstSome (f : List Char → Option α) : List Char → Option α
  | [] => f []
  | l@(_ :: t) =>
    match f l with
    | some a => some a
    | none => firstSome f t

/-- Capture `(.*?)` up to the first `]`; fails on a line terminator or
end of input (JavaScript `.` does not match line terminators). -/
def scanToRBracket : List Char → Option (List Char)
  | [] => none
  | c :: t =>
    if c = ']' then some []
    else if isLineTerm c then none
    else (scanToRBracket t).map (c :: ·)

/-- Match `<kw>\s*\[(.*?)\]` at the current position (used for `tags:`,
`relevantTo:`, `relatedFiles:`).  The greedy `\s*` must be followed by a
literal `[`, so only the maximal whitespace run can succeed. -/
def matchBracketHere (kw : List Char) (l : List Char) : Option (List Char) :=
  if kw.isPrefixOf l then
    let rest := l.drop kw.length
    if rest.get? (wsRunLen rest) = some '[' then
      scanToRBracket (rest.drop (wsRunLen rest + 1))
    else none
  else none

/-- Greedy `.+`: take the rest of the line (up to a line terminator). -/
def takeLine (l : List Char) : List Char :=
  l.takeWhile (fun c => !isLineTerm c)

/-- Backtracking loop for `\s*(.+)`: try to start the `.+` after `k`
whitespace characters, decreasing `k` (greedy `\s*` backtracks). -/
def tryLineFrom (rest : List Char) : Nat → Option (List Char)
  | 0 =>
    match rest.get? 0 with
    | some c => if !isLineTerm c then some (takeLine rest) else none
    | none => none
  | k + 1 =>
    match rest.get? (k + 1) with
    | some c =>
      if !isLineTerm c then some (takeLine (rest.drop (k + 1)))
      else tryLineFrom rest k
    | none => tryLineFrom rest k

/-- Match `<kw>\s*(.+)` at the current position (used for `summary:`). -/
def matchLineHere (kw : List Char) (l : List Char) : Option (List Char) :=
  if kw.isPrefixOf l then
    let rest := l.drop kw.length
    tryLineFrom rest (wsRunLen rest)
  else none

/-- Match `<kw>\s*(C+)` at the current position for a character class
`C` with no whitespace characters (digits, or digits-and-dots): the
greedy `\s*` cannot backtrack into the class, so only the maximal
whitespace run is tried, and the capture is the maximal class run. -/
def matchClassHere (good : Char → Bool) (kw : List Char) (l : List Char) :
    Option (List Char) :=
  if kw.isPrefixOf l then
    let rest := l.drop kw.length
    match rest.get? (wsRunLen rest) with
    | some c =>
      if good c then some ((rest.drop (wsRunLen rest)).takeWhile good)
      else none
    | none => none
  else none

/-- The class `[\d.]` of the `importance` regex. -/
def isDigitOrDot (c : Char) : Bool := c.isDigit || c = '.'

/-! ## Number parsing and printing -/

/-- Numeric value of a digit character. -/
def digitVal (c : Char) : Nat := c.toNat - '0'.toNat

/-- `parseInt(s, 10)` on a string of decimal digits. -/
def parseNatDigits (l : List Char) : Nat :=
  l.foldl (fun acc c => acc * 10 + digitVal c) 0

/-- `parseFloat` restricted to the `[\d.]+` tokens it receives here:
integer digits, an optional dot, fraction digits, stopping at a second
dot; `none` models a `NaN` result (no digits at all). -/
def jsParseFloatL (l : List Char) : Option ℚ :=
  let intPart := l.takeWhile Char.isDigit
  let rest := l.dropWhile Char.isDigit
  match rest with
  | '.' :: t =>
    let fracPart := t.takeWhile Char.isDigit
    if intPart.isEmpty && fracPart.isEmpty then none
    else some ((parseNatDigits intPart : ℚ) +
      (parseNatDigits fracPart : ℚ) / ((10 : ℚ) ^ fracPart.length))
  | _ =>
    if intPart.isEmpty then none
    else some (parseNatDigits intPart : ℚ)

/-- Decimal digits of a natural number (the JavaScript rendering of a
nonnegative integer).  Fuel-based so that it reduces in the kernel. -/
def natToDecAux : Nat → Nat → List Char
  | 0, _ => []
  | fuel + 1, n =>
    if n < 10 then [Char.ofNat ('0'.toNat + n)]
    else natToDecAux fuel (n / 10) ++ [Char.ofNat ('0'.toNat + n % 10)]

/-- Decimal rendering of a natural number. -/
def natToDec (n : Nat) : List Char := natToDecAux (n + 1) n

/-- Left-pad a digit list with `'0'` up to length `k`. -/
def padZeros (k : Nat) (l : List Char) : List Char :=
  List.replicate (k - l.length) '0' ++ l

/-- Least `k ≤ 6` with `d ∣ 10^k`, if any.  (Values needing more than
six decimal places are outside the range this development evaluates;
JavaScript would print such doubles with up to 17 digits or switch to
exponent notation.) -/
def decPow (d : Nat) : Option Nat :=
  ((List.range 7).filter (fun k => 10 ^ k % d = 0)).head?

/-- JavaScript `${x}` rendering of a (model) number.  Exact for
terminating decimals with at most six places, which covers every value
serialized in this development.  The `none` fallback renders the reduced
fraction, a value no JavaScript double produces from the codec's inputs. -/
def ratToDec (q : ℚ) : List Char :=
  if q < 0 then '-' :: ratToDecNN (-q) else ratToDecNN q
where
  /-- Rendering of a nonnegative rational. -/
  ratToDecNN (q : ℚ) : List Char :=
    match decPow q.den with
    | some 0 => natToDec q.num.toNat
    | some (k + 1) =>
      let scaled := q.num.toNat * (10 ^ (k + 1) / q.den)
      natToDec (scaled / 10 ^ (k + 1)) ++ '.' ::
        padZeros (k + 1) (natToDec (scaled % 10 ^ (k + 1)))
    | none => natToDec q.num.toNat ++ '/' :: natToDec q.den

/-! ## The frontmatter codec -/

/-- Usage statistics for learning which files are helpful. -/
structure UsageStats where
  loaded : Nat
  referenced : Nat
  successfulFeatures : Nat
deriving DecidableEq, Repr

/-- Metadata stored in the YAML frontmatter of memory files. -/
structure MemoryMetadata where
  tags : List String
  summary : String
  relevantTo : List String
  importance : ℚ
  relatedFiles : List String
  usageStats : UsageStats
deriving DecidableEq, Repr

/-- `createDefaultMetadata`: default metadata for new memory files. -/
def createDefaultMetadata : MemoryMetadata where
  tags := []
  summary := ""
  relevantTo := []
  importance := 0.5
  relatedFiles := []
  usageStats := { loaded := 0, referenced := 0, successfulFeatures := 0 }

/-- Keyword of the `tags` field regex. -/
def kwTags : List Char := "tags:".data

/-- Keyword of the `summary` field regex. -/
def kwSummary : List Char := "summary:".data

/-- Keyword of the `relevantTo` field regex. -/
def kwRelevantTo : List Char := "relevantTo:".data

/-- Keyword of the `importance` field regex. -/
def kwImportance : List Char := "importance:".data

/-- Keyword of the `relatedFiles` field regex. -/
def kwRelatedFiles : List Char := "relatedFiles:".data

/-- Keyword of the `loaded` stat regex. -/
def kwLoaded : List Char := "loaded:".data

/-- Keyword of the `referenced` stat regex. -/
def kwReferenced : List Char := "referenced:".data

/-- Keyword of the `successfulFeatures` stat regex. -/
def kwSuccess : List Char := "successfulFeatures:".data

/-- Shared postprocessing of a bracket-list capture:
`.split(',').map(t => t.trim().replace(/['"]/g, '')).filter(t => t.length > 0)`. -/
def parseBracketList (cap : List Char) : List String :=
  (((splitComma cap).map (fun t => removeQuotesL (jsTrimL t))).filter
    (fun t => t.length > 0)).map (⟨·⟩)

/-- Field update for `tags: [tag1, tag2, tag3]`. -/
def applyTags (fm : List Char) (md : MemoryMetadata) : MemoryMetadata :=
  match firstSome (matchBracketHere kwTags) fm with
  | some cap => { md with tags := parseBracketList cap }
  | none => md

/-- Field update for `summary: <rest of line>` (trimmed, surrounding
quotes stripped). -/
def applySummary (fm : List Char) (md : MemoryMetadata) : MemoryMetadata :=
  match firstSome (matchLineHere kwSummary) fm with
  | some cap => { md with summary := ⟨stripEdgeQuotesL (jsTrimL cap)⟩ }
  | none => md

/-- Field update for `relevantTo: [term1, term2]`. -/
def applyRelevantTo (fm : List Char) (md : MemoryMetadata) : MemoryMetadata :=
  match firstSome (matchBracketHere kwRelevantTo) fm with
  | some cap => { md with relevantTo := parseBracketList cap }
  | none => md

/-- Field update for `importance: <float>`, clamped to [0, 1]. -/
def applyImportance (fm : List Char) (md : MemoryMetadata) : MemoryMetadata :=
  match firstSome (matchClassHere isDigitOrDot kwImportance) fm with
  | some cap =>
    match jsParseFloatL cap with
    | some v => { md with importance := max 0 (min 1 v) }
    | none => md
  | none => md

/-- Field update for `relatedFiles: [file1.md, file2.md]`. -/
def applyRelatedFiles (fm : List Char) (md : MemoryMetadata) : MemoryMetadata :=
  match firstSome (matchBracketHere kwRelatedFiles) fm with
  | some cap => { md with relatedFiles := parseBracketList cap }
  | none => md

/-- Field update for the `loaded:` stat. -/
def applyLoaded (fm : List Char) (md : MemoryMetadata) : MemoryMetadata :=
  match firstSome (matchClassHere Char.isDigit kwLoaded) fm with
  | some cap => { md with usageStats.loaded := parseNatDigits cap }
  | none => md

/-- Field update for the `referenced:` stat. -/
def applyReferenced (fm : List Char) (md : MemoryMetadata) : MemoryMetadata :=
  match firstSome (matchClassHere Char.isDigit kwReferenced) fm with
  | some cap => { md with usageStats.referenced := parseNatDigits cap }
  | none => md

/-- Field update for the `successfulFeatures:` stat. -/
def applySuccess (fm : List Char) (md : MemoryMetadata) : MemoryMetadata :=
  match firstSome (matchClassHere Char.isDigit kwSuccess) fm with
  | some cap => { md with usageStats.successfulFeatures := parseNatDigits cap }
  | none => md

/-- The per-field parsing chain of `parseFrontmatter`, in source order;
each step is independent and keeps its default on a failed match. -/
def parseFields (fm : List Char) : MemoryMetadata :=
  applySuccess fm (applyReferenced fm (applyLoaded fm (applyRelatedFiles fm
    (applyImportance fm (applyRelevantTo fm (applySummary fm
      (applyTags fm createDefaultMetadata)))))))

/-- `parseFrontmatter`: parse the YAML frontmatter from markdown content,
returning the metadata and the content without frontmatter.  Field
parsing is per-field and independent; a missing or malformed field keeps
its default. -/
def parseFrontmatter (content : String) : MemoryMetadata × String :=
  match matchFrontmatterL content.data with
  | none => (createDefaultMetadata, content)
  | some (fm, bodyL) => (parseFields fm, ⟨bodyL⟩)

/-- The character test of `escapeYamlString`:
`/[:\[\]{}#&*!|>'"%@`\n\r]/` (colon, brackets, braces, hash, ampersand,
asterisk, bang, pipe, angle bracket, quotes, percent, at, backtick,
newline, carriage return). -/
def isYamlSpecial (c : Char) : Bool :=
  c = ':' || c = '[' || c = ']' || c = '\x7b' || c = '\x7d' || c = '#' ||
  c = '&' || c = '*' || c = '!' || c = '|' || c = '>' || c = '\'' ||
  c = '"' || c = '%' || c = '@' || c = '\x60' || c = '\n' || c = '\r'

/-- `escapeYamlString`: wrap a string in double quotes (escaping any
inner double quotes) if it contains a YAML-significant character or has
leading/trailing whitespace. -/
def escapeYamlString (str : String) : String :=
  if str.data.any isYamlSpecial || jsTrimL str.data ≠ str.data then
    "\"" ++ ⟨str.data.flatMap (fun c => if c = '"' then ['\\', '"'] else [c])⟩ ++ "\""
  else str

/-- `serializeFrontmatter`: serialize metadata back to YAML frontmatter
(template literal of the source; ends with `---`, no trailing newline). -/
def serializeFrontmatter (metadata : MemoryMetadata) : String :=
  "---\ntags: [" ++ String.intercalate ", " (metadata.tags.map escapeYamlString) ++
  "]\nsummary: " ++ escapeYamlString metadata.summary ++
  "\nrelevantTo: [" ++ String.intercalate ", " (metadata.relevantTo.map escapeYamlString) ++
  "]\nimportance: " ++ ⟨ratToDec metadata.importance⟩ ++
  "\nrelatedFiles: [" ++ String.intercalate ", " (metadata.relatedFiles.map escapeYamlString) ++
  "]\nusageStats:\n  loaded: " ++ ⟨natToDec metadata.usageStats.loaded⟩ ++
  "\n  referenced: " ++ ⟨natToDec metadata.usageStats.referenced⟩ ++
  "\n  successfulFeatures: " ++ ⟨natToDec metadata.usageStats.successfulFeatures⟩ ++
  "\n---"

/-! ## Term extraction and matching -/

/-- The stop-word list of `extractTerms`. -/
def stopWords : List String :=
  ["a", "an", "the", "and", "or", "but", "in", "on", "at", "to", "for",
   "of", "with", "by", "is", "it", "this", "that", "be", "as", "are",
   "was", "were", "been", "being", "have", "has", "had", "do", "does",
   "did", "will", "would", "could", "should", "may", "might", "must",
   "shall", "can", "need", "dare", "ought", "used", "add", "create",
   "implement", "build", "make", "update", "fix", "change", "modify"]

/-- Split into maximal runs of non-whitespace characters (the nonempty
pieces of `split(/\s+/)`; the possible empty edge pieces of the
JavaScript split are discarded by the length filter anyway). -/
def splitWsRunsAux : List Char → List Char → List (List Char)
  | [], acc => if acc.isEmpty then [] else [acc.reverse]
  | c :: t, acc =>
    if isJsWS c then
      if acc.isEmpty then splitWsRunsAux t []
      else acc.reverse :: splitWsRunsAux t []
    else splitWsRunsAux t (c :: acc)

/-- `extractTerms`: lowercase, replace every character outside
`[a-z0-9\s]` with a space, split on whitespace runs, keep words longer
than two characters that are not stop words.  (`Char.toLower` is the
ASCII lowering; non-ASCII letters are erased by the character filter in
either model.) -/
def extractTerms (text : String) : List String :=
  let cleaned := text.data.map (fun c =>
    let c := c.toLower
    if ('a' ≤ c && c ≤ 'z') || c.isDigit || isJsWS c then c else ' ')
  ((splitWsRunsAux cleaned []).map (fun w => (⟨w⟩ : String))).filter
    (fun w => w.length > 2 && !stopWords.contains w)

/-- `String.prototype.toLowerCase` (ASCII lowering, like the character
filter of `extractTerms`). -/
def jsToLower (s : String) : String := ⟨s.data.map Char.toLower⟩

/-- `String.prototype.endsWith`. -/
def jsEndsWith (s suffix : String) : Bool := suffix.data.isSuffixOf s.data

/-- `countMatches`: how many entries of `arr1` occur, case-insensitively,
among `arr2` (the JavaScript `Set` is modelled by list membership). -/
def countMatches (arr1 arr2 : List String) : Nat :=
  let set2 := arr2.map jsToLower
  (arr1.filter (fun t => set2.contains (jsToLower t))).length

/-- `calculateUsageScore`: usage-based score multiplier for a memory
file. -/
def calculateUsageScore (stats : UsageStats) : ℚ :=
  if stats.loaded = 0 then 1
  else
    let referenceRate : ℚ := (stats.referenced : ℚ) / (stats.loaded : ℚ)
    let successRate : ℚ :=
      if stats.referenced > 0 then
        (stats.successfulFeatures : ℚ) / (stats.referenced : ℚ)
      else 0
    0.5 + referenceRate * 0.3 + successRate * 0.2

/-! ## Memory selection (the memory section of `loadContextFiles`) -/

/-- Task context for smart memory selection. -/
structure TaskContext where
  title : String
  description : Option String
deriving DecidableEq, Repr

/-- The task terms used by `loadContextFiles`:
`taskContext ? extractTerms(title + ' ' + (description || '')) : []`. -/
def taskTermsOf : Option TaskContext → List String
  | some tc => extractTerms (tc.title ++ " " ++ tc.description.getD "")
  | none => []

/-- A scored memory-file candidate (the `scoredFiles` entries). -/
structure ScoredFile where
  fileName : String
  body : String
  metadata : MemoryMetadata
  score : ℚ
deriving DecidableEq, Repr

/-- Remove the first occurrence of `.md` (JavaScript
`fileName.replace('.md', '')`). -/
def removeFirstMd : List Char → List Char
  | '.' :: 'm' :: 'd' :: t => t
  | c :: t => c :: removeFirstMd t
  | [] => []

/-- `split(/[-_]/)`: split at every hyphen/underscore, keeping empty
pieces. -/
def splitHyphenUnderscore : List Char → List (List Char)
  | [] => [[]]
  | c :: t =>
    match splitHyphenUnderscore t with
    | [] => [[]]
    | p :: ps => if c = '-' || c = '_' then [] :: p :: ps else (c :: p) :: ps

/-- The category terms of the scorer: filename minus `.md`, split on
hyphens/underscores, keeping pieces longer than two characters. -/
def categoryTermsOf (fileName : String) : List String :=
  ((splitHyphenUnderscore (removeFirstMd fileName.data)).filter
    (fun t => t.length > 2)).map (⟨·⟩)

/-- The relevance score computed by `loadContextFiles` for one memory
file (`part_013`, lines 307–334). -/
def scoreMemoryFile (fileName : String) (metadata : MemoryMetadata)
    (taskTerms : List String) : ℚ :=
  if taskTerms.length > 0 then
    let tagScore : ℚ := (countMatches metadata.tags taskTerms : ℚ) * 3
    let relevantToScore : ℚ := (countMatches metadata.relevantTo taskTerms : ℚ) * 2
    let summaryTerms := extractTerms metadata.summary
    let summaryScore : ℚ := (countMatches summaryTerms taskTerms : ℚ)
    let categoryScore : ℚ := (countMatches (categoryTermsOf fileName) taskTerms : ℚ) * 4
    let usageScore := calculateUsageScore metadata.usageStats
    (tagScore + relevantToScore + summaryScore + categoryScore) *
      metadata.importance * usageScore
  else metadata.importance

/-- Candidate filtering and scoring: keep `.md` files (case-insensitive)
other than `_index.md`, parse, skip empty-trimmed bodies, score.  The
directory listing with file contents is passed in reading order; the
model assumes every listed file is readable (unreadable files are simply
skipped by the source). -/
def scoreCandidates (files : List (String × String)) (taskTerms : List String) :
    List ScoredFile :=
  (files.filter (fun f =>
    jsEndsWith (jsToLower f.1) ".md" && jsToLower f.1 ≠ "_index.md")).filterMap
    (fun f =>
      let parsed := parseFrontmatter f.2
      if (jsTrimL parsed.2.data).isEmpty then none
      else some { fileName := f.1, body := parsed.2, metadata := parsed.1,
                  score := scoreMemoryFile f.1 parsed.1 taskTerms })

/-- Stable insertion for the descending score order: an element is
placed before every element of score not larger than its own, so earlier
elements stay first among ties — the unique result of the (stable)
JavaScript `sort((a, b) => b.score - a.score)`. -/
def insertByScore (x : ScoredFile) : List ScoredFile → List ScoredFile
  | [] => [x]
  | y :: ys => if x.score < y.score then y :: insertByScore x ys else x :: y :: ys

/-- Stable descending sort by score. -/
def sortByScoreDesc (l : List ScoredFile) : List ScoredFile :=
  l.foldr insertByScore []

/-- `Set.add`: append if not already present. -/
def addUnique (l : List String) (x : String) : List String :=
  if l.contains x then l else l ++ [x]

/-- The selection policy of `loadContextFiles` (`part_013`, lines
345–374), applied to the sorted candidate list: nothing if
`maxMemoryFiles = 0`; otherwise `gotchas.md` if present, then
high-importance files while below the cap, then (only with task terms)
positive-score files while below the cap. -/
def selectNames (sorted : List ScoredFile) (taskTerms : List String)
    (maxMemoryFiles : Nat) : List String :=
  if maxMemoryFiles > 0 then
    let sel : List String :=
      match sorted.find? (fun f => f.fileName = "gotchas.md") with
      | some _ => addUnique [] "gotchas.md"
      | none => []
    let sel := sorted.foldl (fun sel f =>
      if f.metadata.importance ≥ 0.9 ∧ sel.length < maxMemoryFiles then
        addUnique sel f.fileName
      else sel) sel
    if taskTerms.length > 0 then
      sorted.foldl (fun sel f =>
        if 0 < f.score ∧ sel.length < maxMemoryFiles then
          addUnique sel f.fileName
        else sel) sel
    else sel
  else []

/-- End-to-end memory selection of `loadContextFiles`: the names of the
selected memory files, given the memory-directory listing (with
contents) and the optional task context. -/
def loadMemorySelection (files : List (String × String))
    (taskContext : Option TaskContext) (maxMemoryFiles : Nat) : List String :=
  let taskTerms := taskTermsOf taskContext
  let sorted := sortByScoreDesc (scoreCandidates files taskTerms)
  selectNames sorted taskTerms maxMemoryFiles

/-- The selected files in the order they are pushed onto `memoryFiles`
(iteration over the sorted candidates). -/
def selectedMemoryFiles (files : List (String × String))
    (taskContext : Option TaskContext) (maxMemoryFiles : Nat) : List ScoredFile :=
  let taskTerms := taskTermsOf taskContext
  let sorted := sortByScoreDesc (scoreCandidates files taskTerms)
  sorted.filter (fun f => (selectNames sorted taskTerms maxMemoryFiles).contains f.fileName)

/-! ## The file-lock state machine (`withFileLock`)

Concurrent `incrementUsageStat` calls on one path are modelled as a
small-step system.  Each operation is an interleaved sequence of atomic
segments, one per synchronous block between `await` boundaries of the
source:

* `start` — entry of `withFileLock`: reads the lock map; if empty,
  installs its own promise and initiates the read (the whole block up to
  the first `await` is synchronous); otherwise begins awaiting the
  existing promise.
* `waiting j` — resumption after `await existingLock`: enabled once
  operation `j` has resolved its promise (which happens in `j`'s final
  segment); installs its own promise (overwriting the map entry) and
  initiates the read.
* `reading` — the `readFile` completes: samples the file and initiates
  the write of the incremented value.
* `writing v` — the `writeFile` completes: stores `v + 1`; the `finally`
  block then runs synchronously: resolves the promise and
  unconditionally deletes the map entry.

The file is abstracted to the value of the incremented counter. -/

/-- Phase of one in-flight `incrementUsageStat` operation. -/
inductive OpPhase where
  | start : OpPhase
  | waiting : Nat → OpPhase
  | reading : OpPhase
  | writing : Nat → OpPhase
  | done : OpPhase
deriving DecidableEq, Repr

/-- Global state: the lock-map entry for the path, the counter stored in
the file, and the per-operation phases. -/
structure LockSystem where
  lock : Option Nat
  file : Nat
  ops : List OpPhase
deriving DecidableEq, Repr

/-- One atomic segment of operation `i` (no effect if `i` is not
currently enabled). -/
def lockStep (s : LockSystem) (i : Nat) : LockSystem :=
  match s.ops.get? i with
  | some OpPhase.start =>
    match s.lock with
    | none => { s with lock := some i, ops := s.ops.set i OpPhase.reading }
    | some j => { s with ops := s.ops.set i (OpPhase.waiting j) }
  | some (OpPhase.waiting j) =>
    if s.ops.get? j = some OpPhase.done then
      { s with lock := some i, ops := s.ops.set i OpPhase.reading }
    else s
  | some OpPhase.reading =>
    { s with ops := s.ops.set i (OpPhase.writing s.file) }
  | some (OpPhase.writing v) =>
    { lock := none, file := v + 1, ops := s.ops.set i OpPhase.done }
  | _ => s

/-- Run a schedule of atomic segments. -/
def lockRun (s : LockSystem) (sched : List Nat) : LockSystem :=
  sched.foldl lockStep s

/-- Initial state: `n` operations about to call `incrementUsageStat` on
a file whose counter is `v`. -/
def lockInit (n v : Nat) : LockSystem :=
  { lock := none, file := v, ops := List.replicate n OpPhase.start }

/-! ## File-store model, usage increments and the learning recorder

The store is an association list from path to content (`readFile`
succeeds exactly on present paths; `writeFile`/`appendFile` update or
create).  `withFileLock` is the identity for the single sequential calls
modelled here; its concurrent behaviour is the state machine above. -/

/-- The file-system state. -/
def Fs := List (String × String)

/-- Read a file: `some` content iff the path is present. -/
def fsGet (fs : Fs) (p : String) : Option String :=
  ((fs : List (String × String)).find? (fun e => e.1 = p)).map (·.2)

/-- Write a file: replace the first binding or append a new one. -/
def fsSet (fs : Fs) (p c : String) : Fs :=
  match fs with
  | [] => [(p, c)]
  | e :: t => if e.1 = p then (p, c) :: t else e :: fsSet t p c

/-- `getMemoryDir`: `path.join(projectPath, '.automaker', 'memory')`
(modelled as plain separator concatenation). -/
def getMemoryDir (projectPath : String) : String :=
  projectPath ++ "/.automaker/memory"

/-- The three usage-stat names. -/
inductive StatName where
  | loaded : StatName
  | referenced : StatName
  | successfulFeatures : StatName
deriving DecidableEq, Repr

/-- Dynamic access `stats[stat]`. -/
def UsageStats.get (stats : UsageStats) : StatName → Nat
  | StatName.loaded => stats.loaded
  | StatName.referenced => stats.referenced
  | StatName.successfulFeatures => stats.successfulFeatures

/-- `metadata.usageStats[stat]++`. -/
def bumpStat (md : MemoryMetadata) : StatName → MemoryMetadata
  | StatName.loaded =>
    { md with usageStats.loaded := md.usageStats.loaded + 1 }
  | StatName.referenced =>
    { md with usageStats.referenced := md.usageStats.referenced + 1 }
  | StatName.successfulFeatures =>
    { md with usageStats.successfulFeatures := md.usageStats.successfulFeatures + 1 }

/-- `incrementUsageStat`: read, parse, increment the named counter,
re-serialize (with a newline before the body), write back; any read
failure is swallowed and nothing is written. -/
def incrementUsageStat (fs : Fs) (filePath : String) (stat : StatName) : Fs :=
  match fsGet fs filePath with
  | none => fs
  | some content =>
    let parsed := parseFrontmatter content
    fsSet fs filePath
      (serializeFrontmatter (bumpStat parsed.1 stat) ++ "\n" ++ parsed.2)

/-- The learning types. -/
inductive LearningType where
  | decision : LearningType
  | learning : LearningType
  | pattern : LearningType
  | gotcha : LearningType
deriving DecidableEq, Repr

/-- A learning entry to be recorded. -/
structure LearningEntry where
  category : String
  type : LearningType
  content : String
  context : Option String
  why : Option String
  rejected : Option String
  tradeoffs : Option String
  breaking : Option String
deriving DecidableEq, Repr

/-- Optional bullet line. -/
def optLine (label : String) : Option String → List String
  | some v => [label ++ v]
  | none => []

/-- `lines.join('\n')` (JavaScript `Array.prototype.join`). -/
def joinLines : List String → String
  | [] => ""
  | x :: xs => xs.foldl (fun acc y => acc ++ "\n" ++ y) x

/-- `formatLearning`: ADR-style rendering; `date` stands for the
`new Date().toISOString().split('T')[0]` of the source (an external
input to the model). -/
def formatLearning (date : String) (learning : LearningEntry) : String :=
  match learning.type with
  | LearningType.decision =>
    joinLines
      (["\n### " ++ learning.content ++ " (" ++ date ++ ")"] ++
       optLine "- **Context:** " learning.context ++
       optLine "- **Why:** " learning.why ++
       optLine "- **Rejected:** " learning.rejected ++
       optLine "- **Trade-offs:** " learning.tradeoffs ++
       optLine "- **Breaking if changed:** " learning.breaking)
  | LearningType.gotcha =>
    joinLines
      (["\n#### [Gotcha] " ++ learning.content ++ " (" ++ date ++ ")"] ++
       optLine "- **Situation:** " learning.context ++
       optLine "- **Root cause:** " learning.why ++
       optLine "- **How to avoid:** " learning.tradeoffs)
  | t =>
    let pre := if t = LearningType.pattern then "[Pattern]" else "[Learned]"
    joinLines
      (["\n#### " ++ pre ++ " " ++ learning.content ++ " (" ++ date ++ ")"] ++
       optLine "- **Problem solved:** " learning.context ++
       optLine "- **Why this works:** " learning.why ++
       optLine "- **Trade-offs:** " learning.tradeoffs)

/-- Collapse every whitespace run to a single hyphen
(`.replace(/\s+/g, '-')`); the flag records whether the previous
character was inside a run. -/
def collapseWsAux : Bool → List Char → List Char
  | _, [] => []
  | inRun, c :: t =>
    if isJsWS c then
      if inRun then collapseWsAux true t else '-' :: collapseWsAux true t
    else c :: collapseWsAux false t

/-- Category sanitization of `appendLearning`: lowercase, whitespace
runs to single hyphens, strip everything outside `[a-z0-9-]`. -/
def sanitizeCategory (category : String) : String :=
  ⟨(collapseWsAux false (category.data.map Char.toLower)).filter
    (fun c => ('a' ≤ c && c ≤ 'z') || c.isDigit || c = '-')⟩

/-- The target file name of `appendLearning`:
`${sanitizedCategory || 'general'}.md`. -/
def learningFileName (category : String) : String :=
  (if sanitizeCategory category = "" then "general"
   else sanitizeCategory category) ++ ".md"

/-- `appendLearning`: append the formatted learning to the category file
if it exists, else create the file with seeded metadata, a heading with
the original category name, and the first entry. -/
def appendLearning (projectPath date : String) (learning : LearningEntry)
    (fs : Fs) : Fs :=
  let memoryDir := getMemoryDir projectPath
  let sanitizedCategory := sanitizeCategory learning.category
  let fileName := learningFileName learning.category
  let filePath := memoryDir ++ "/" ++ fileName
  match fsGet fs filePath with
  | some existing =>
    fsSet fs filePath (existing ++ "\n" ++ formatLearning date learning)
  | none =>
    let metadata : MemoryMetadata :=
      { tags := [if sanitizedCategory = "" then "general" else sanitizedCategory]
        summary := learning.category ++ " implementation decisions and patterns"
        relevantTo := [if sanitizedCategory = "" then "general" else sanitizedCategory]
        importance := 0.7
        relatedFiles := []
        usageStats := { loaded := 0, referenced := 0, successfulFeatures := 0 } }
    fsSet fs filePath
      (serializeFrontmatter metadata ++ "\n# " ++ learning.category ++ "\n" ++
       formatLearning date learning)

/-- Modelled from the claim's words (C4), for comparison with the code:
"each match count is the number of task terms occurring
(case-insensitively) in the respective term collection" — i.e. it counts
task terms, not collection entries. -/
def claimTaskTermCount (taskTerms coll : List String) : Nat :=
  (taskTerms.filter (fun t => (coll.map jsToLower).contains (jsToLower t))).length

/-- Concrete scenario of C3: `gotchas.md` (nonempty body) plus four
candidates scoring zero against the task terms. -/
def gotchasScenarioFiles : List (String × String) :=
  [("gotchas.md", "---\ntags: [gotcha]\n---\nG"),
   ("one.md", "---\ntags: [aaa]\n---\nA"),
   ("two.md", "---\ntags: [bbb]\n---\nB"),
   ("three.md", "---\ntags: [ccc]\n---\nC"),
   ("four.md", "---\ntags: [ddd]\n---\nD")]

/-- Concrete scenario of C3: ten candidates of importance 0.95. -/
def capScenarioFiles : List (String × String) :=
  (List.range 10).map (fun i =>
    ("f" ++ ⟨natToDec i⟩ ++ ".md", "---\nimportance: 0.95\n---\nB"))

/-! ## Definitions for the round-trip analysis (C1)

The round-trip property holds only on a restricted class of metadata:
string values must not contain characters or field-keyword substrings
that the per-field regex searches or the quote-stripping post-processing
would misinterpret, and the body must not begin with whitespace that the
closing delimiter's greedy `\s*\r?\n` would swallow. -/

/-- The keywords the per-field regexes search for anywhere in the
frontmatter block; an occurrence inside a string value can hijack
another field's search. -/
def fieldKeywords : List (List Char) :=
  [kwTags, kwSummary, kwRelevantTo, kwImportance, kwRelatedFiles,
   kwLoaded, kwReferenced, kwSuccess]

/-- A list element that serializes and re-parses unchanged: nonempty,
trimmed, single-line, free of quotes (the parser strips all of them),
commas (the list separator), closing brackets (the capture terminator),
and the field keywords. -/
def CleanItem (s : String) : Prop :=
  s ≠ "" ∧ jsTrimL s.data = s.data ∧
  (∀ c ∈ s.data, isLineTerm c = false ∧ c ≠ '"' ∧ c ≠ '\'' ∧ c ≠ ',' ∧ c ≠ ']') ∧
  ∀ kw ∈ fieldKeywords, ¬ kw <:+: s.data

/-- A summary that serializes and re-parses unchanged: nonempty (an
empty summary line makes the `summary:` regex capture the next line),
trimmed, single-line, quote-free, keyword-free. -/
def CleanSummary (s : String) : Prop :=
  s ≠ "" ∧ jsTrimL s.data = s.data ∧
  (∀ c ∈ s.data, isLineTerm c = false ∧ c ≠ '"' ∧ c ≠ '\'') ∧
  ∀ kw ∈ fieldKeywords, ¬ kw <:+: s.data

/-- An importance value whose decimal rendering re-parses exactly: a
terminating decimal of at most six places within the clamp range. -/
def CleanImportance (q : ℚ) : Prop := 0 ≤ q ∧ q ≤ 1 ∧ q.den ∣ 10 ^ 6

/-- Counters small enough that a JavaScript number renders them
exactly. -/
def CleanStats (st : UsageStats) : Prop :=
  st.loaded < 2 ^ 53 ∧ st.referenced < 2 ^ 53 ∧ st.successfulFeatures < 2 ^ 53

/-- The whole metadata record is round-trippable. -/
def CleanMetadata (m : MemoryMetadata) : Prop :=
  (∀ t ∈ m.tags, CleanItem t) ∧ CleanSummary m.summary ∧
  (∀ t ∈ m.relevantTo, CleanItem t) ∧ CleanImportance m.importance ∧
  (∀ t ∈ m.relatedFiles, CleanItem t) ∧ CleanStats m.usageStats

/-- The body's leading whitespace run contains no newline — otherwise
the closing delimiter's greedy `\s*\r?\n` consumes it. -/
def BodyOk (body : String) : Prop :=
  '\n' ∉ body.data.take (wsRunLen body.data)

/-- The serialized items of a bracket-list field
(`escapedTags.join(', ')`). -/
def jnItems (xs : List String) : List Char :=
  (String.intercalate ", " (xs.map escapeYamlString)).data

/-- The frontmatter group captured when re-parsing `serializeFrontmatter
m` (everything between the delimiter lines). -/
def fmData (m : MemoryMetadata) : List Char :=
  "tags: [".data ++ jnItems m.tags ++
  "]\nsummary: ".data ++ (escapeYamlString m.summary).data ++
  "\nrelevantTo: [".data ++ jnItems m.relevantTo ++
  "]\nimportance: ".data ++ ratToDec m.importance ++
  "\nrelatedFiles: [".data ++ jnItems m.relatedFiles ++
  "]\nusageStats:\n  loaded: ".data ++ natToDec m.usageStats.loaded ++
  "\n  referenced: ".data ++ natToDec m.usageStats.referenced ++
  "\n  successfulFeatures: ".data ++ natToDec m.usageStats.successfulFeatures

/-- Frontmatter text through which the closing-delimiter scan finds no
match: no carriage return, and no newline followed by a dash. -/
def goodFm : List Char → Bool
  | [] => true
  | '\r' :: _ => false
  | '\n' :: '-' :: _ => false
  | _ :: t => goodFm t

/-- The ten decimal digit characters. -/
def decDigits : List Char := ['0', '1', '2', '3', '4', '5', '6', '7', '8', '9']

/-- Suffix of `fmData` from the `successfulFeatures:` keyword on. -/
def fmS9 (m : MemoryMetadata) : List Char :=
  kwSuccess ++ ' ' :: natToDec m.usageStats.successfulFeatures

/-- Suffix of `fmData` from the `referenced:` keyword on. -/
def fmS8 (m : MemoryMetadata) : List Char :=
  kwReferenced ++ ' ' ::
    (natToDec m.usageStats.referenced ++ '\n' :: ' ' :: ' ' :: fmS9 m)

/-- Suffix of `fmData` from the `loaded:` keyword on. -/
def fmS7 (m : MemoryMetadata) : List Char :=
  kwLoaded ++ ' ' ::
    (natToDec m.usageStats.loaded ++ '\n' :: ' ' :: ' ' :: fmS8 m)

/-- Suffix of `fmData` from the `relatedFiles:` keyword on. -/
def fmS6 (m : MemoryMetadata) : List Char :=
  kwRelatedFiles ++ ' ' :: '[' ::
    (jnItems m.relatedFiles ++ ']' :: '\n' ::
      ("usageStats:".data ++ '\n' :: ' ' :: ' ' :: fmS7 m))

/-- Suffix of `fmData` from the `importance:` keyword on. -/
def fmS5 (m : MemoryMetadata) : List Char :=
  kwImportance ++ ' ' :: (ratToDec m.importance ++ '\n' :: fmS6 m)

/-- Suffix of `fmData` from the `relevantTo:` keyword on. -/
def fmS4 (m : MemoryMetadata) : List Char :=
  kwRelevantTo ++ ' ' :: '[' ::
    (jnItems m.relevantTo ++ ']' :: '\n' :: fmS5 m)

/-- Suffix of `fmData` from the `summary:` keyword on. -/
def fmS3 (m : MemoryMetadata) : List Char :=
  kwSummary ++ ' ' :: ((escapeYamlString m.summary).data ++ '\n' :: fmS4 m)

/-- `fmData` as seen by the `tags:` matcher (the whole group). -/
def fmS2 (m : MemoryMetadata) : List Char :=
  kwTags ++ ' ' :: '[' :: (jnItems m.tags ++ ']' :: '\n' :: fmS3 m)

/-- Prefix of `fmData` before the `summary:` keyword. -/
def fmA3 (m : MemoryMetadata) : List Char :=
  "tags: [".data ++ (jnItems m.tags ++ [']', '\n'])

/-- Prefix of `fmData` before the `relevantTo:` keyword. -/
def fmA4 (m : MemoryMetadata) : List Char :=
  fmA3 m ++ ("summary: ".data ++ ((escapeYamlString m.summary).data ++ ['\n']))

/-- Prefix of `fmData` before the `importance:` keyword. -/
def fmA5 (m : MemoryMetadata) : List Char :=
  fmA4 m ++ ("relevantTo: [".data ++ (jnItems m.relevantTo ++ [']', '\n']))

/-- Prefix of `fmData` before the `loaded:` keyword. -/
def fmA7 (m : MemoryMetadata) : List Char :=
  fmA5 m ++ ("importance: ".data ++ (ratToDec m.importance ++ ['\n'])) ++
    ("relatedFiles: [".data ++
      (jnItems m.relatedFiles ++ (']' :: '\n' :: "usageStats:\n  ".data)))

/-- Prefix of `fmData` before the `referenced:` keyword. -/
def fmA8 (m : MemoryMetadata) : List Char :=
  fmA7 m ++ ("loaded: ".data ++
    (natToDec m.usageStats.loaded ++ ['\n', ' ', ' ']))

/-- Prefix of `fmData` before the `successfulFeatures:` keyword. -/
def fmA9 (m : MemoryMetadata) : List Char :=
  fmA8 m ++ ("referenced: ".data ++
    (natToDec m.usageStats.referenced ++ ['\n', ' ', ' ']))

/-- Prefix of `fmData` before the `relatedFiles:` keyword. -/
def fmA6 (m : MemoryMetadata) : List Char :=
  fmA5 m ++ ("importance: ".data ++ (ratToDec m.importance ++ ['\n']))

/-! ## Store lemmas -/

theorem fsGet_fsSet_self (fs : Fs) (p c : String) : fsGet (fsSet fs p c) p = some c := by
  induction fs with
  | nil => simp [fsSet, fsGet, List.find?]
  | cons e t ih =>
    by_cases h : e.1 = p
    · simp [fsSet, fsGet, h, List.find?]
    · simpa [fsSet, fsGet, h, List.find?] using ih

theorem fsGet_fsSet_ne (fs : Fs) (p c q : String) (hq : q ≠ p) :
    fsGet (fsSet fs p c) q = fsGet fs q := by
  have hpq : ¬ (p = q) := fun h => hq h.symm
  induction fs with
  | nil => simp [fsSet, fsGet, List.find?, hpq]
  | cons e t ih =>
    obtain ⟨a, b⟩ := e
    by_cases h : a = p
    · subst h
      simp [fsSet, fsGet, List.find?, hpq]
    · by_cases h2 : a = q
      · subst h2
        simp [fsSet, fsGet, List.find?, h]
      · simpa [fsSet, fsGet, List.find?, h, h2] using ih

/-! ## C2: lock serialization -/

/-- C2.  The claim asserts that `N` concurrent `incrementUsageStat`
calls on one file are serialized in lock-request order with the counter
advancing by exactly `N`.  The code does not satisfy this: every waiter
awaits the *same* pending promise (`withFileLock` awaits whatever is in
the map at entry), so once the first operation resolves, all waiters
resume and run their read-modify-write sections concurrently.  This
theorem replays such a schedule for three operations on a counter
starting at 0: operations 1 and 2 both await operation 0, then both
read the value 1 and both write 2.  All three complete, but the final
counter is 2, not 3 — one update is lost, contradicting both the claim
and the source's own comments ("In-memory locks to prevent race
conditions when updating files"). -/
theorem lock_three_waiters_lost_update :
    lockRun (lockInit 3 0) [0, 1, 2, 0, 0, 1, 2, 1, 2, 1, 2] =
      { lock := none, file := 2,
        ops := [OpPhase.done, OpPhase.done, OpPhase.done] } ∧
    (2 : Nat) ≠ 0 + 3 := by
  decide

/-! ## C6: importance clamping -/

/-- C7.  `parseFrontmatter` is total by construction (it is a Lean
function on all of `String`; the source's regex operations cannot throw
and the `try`/`catch` is vacuous).  Whenever the input does not begin
with a complete delimited frontmatter block (the anchored block regex
does not match), the result is the fully default metadata — importance
0.5, empty lists, empty summary, zero counters — with the entire input
as body. -/
theorem parse_no_frontmatter_default (content : String)
    (h : matchFrontmatterL content.data = none) :
    parseFrontmatter content =
      ({ tags := [], summary := "", relevantTo := [], importance := 0.5,
         relatedFiles := [],
         usageStats := { loaded := 0, referenced := 0, successfulFeatures := 0 } },
       content) := by
  unfold parseFrontmatter
  rw [h]
  rfl

/-- Witness for C7: an unterminated header is not a frontmatter block,
so the whole input (garbage included) comes back as the body with
default metadata. -/
theorem parse_no_frontmatter_default_witness :
    matchFrontmatterL ("---\ntags: [a]\nno closing".data) = none ∧
    parseFrontmatter "---\ntags: [a]\nno closing" =
      ({ tags := [], summary := "", relevantTo := [], importance := 0.5,
         relatedFiles := [],
         usageStats := { loaded := 0, referenced := 0, successfulFeatures := 0 } },
       "---\ntags: [a]\nno closing") :=
  ⟨by decide, parse_no_frontmatter_default _ (by decide)⟩

/-! ## C5: the usage score -/

/-- Counterexample to C5: the claimed bounds `0.5 ≤ usageScore ≤ 1.0`
fail when `referenced > loaded` (the counters are independent, nothing
enforces `referenced ≤ loaded`): with stats `{loaded: 1, referenced: 5,
successfulFeatures: 0}` the score is `0.5 + 5 × 0.3 = 2`. -/
theorem usage_score_bounds_counterexample :
    calculateUsageScore
        { loaded := 1, referenced := 5, successfulFeatures := 0 } = 2 ∧
    ¬ calculateUsageScore
        { loaded := 1, referenced := 5, successfulFeatures := 0 } ≤ 1 := by
  decide

/-- C5 (amended).  `calculateUsageScore` returns exactly 1 when
`loaded = 0`, and otherwise returns
`0.5 + (referenced/loaded) × 0.3 + (successfulFeatures/referenced if
referenced > 0 else 0) × 0.2`; this value lies in `[0.5, 1]` provided
the counters satisfy the expected (but unenforced) invariants
`referenced ≤ loaded` and `successfulFeatures ≤ referenced` — without
them it can exceed 1 (see the counterexample). -/
theorem usage_score_spec (stats : UsageStats) :
    (stats.loaded = 0 → calculateUsageScore stats = 1) ∧
    (0 < stats.loaded →
      calculateUsageScore stats =
        0.5 + (stats.referenced : ℚ) / (stats.loaded : ℚ) * 0.3 +
          (if 0 < stats.referenced then
            (stats.successfulFeatures : ℚ) / (stats.referenced : ℚ)
           else 0) * 0.2) ∧
    (0 < stats.loaded → stats.referenced ≤ stats.loaded →
      stats.successfulFeatures ≤ stats.referenced →
      0.5 ≤ calculateUsageScore stats ∧ calculateUsageScore stats ≤ 1) := by
  refine ⟨fun h0 => by simp [calculateUsageScore, h0], fun hl => ?_, fun hl hr hs => ?_⟩
  · simp [calculateUsageScore, Nat.pos_iff_ne_zero.mp hl]
  · have hl' : (0 : ℚ) < (stats.loaded : ℚ) := by exact_mod_cast hl
    have hrq : ((stats.referenced : ℚ)) / (stats.loaded : ℚ) ≤ 1 :=
      (div_le_one hl').mpr (by exact_mod_cast hr)
    have hrq0 : (0 : ℚ) ≤ (stats.referenced : ℚ) / (stats.loaded : ℚ) :=
      div_nonneg (by positivity) (by positivity)
    have hsq : (if 0 < stats.referenced then
        (stats.successfulFeatures : ℚ) / (stats.referenced : ℚ) else 0) ≤ 1 := by
      split
      · next hrpos =>
        have : (0 : ℚ) < (stats.referenced : ℚ) := by exact_mod_cast hrpos
        exact (div_le_one this).mpr (by exact_mod_cast hs)
      · norm_num
    have hsq0 : (0 : ℚ) ≤ (if 0 < stats.referenced then
        (stats.successfulFeatures : ℚ) / (stats.referenced : ℚ) else 0) := by
      split
      · exact div_nonneg (by positivity) (by positivity)
      · norm_num
    simp only [calculateUsageScore, Nat.pos_iff_ne_zero.mp hl, if_false]
    constructor <;> [nlinarith; nlinarith]

/-- Witness for C5: the invariant-respecting stats `{2, 1, 1}` give a
score inside `[0.5, 1]`. -/
theorem usage_score_spec_witness :
    0.5 ≤ calculateUsageScore { loaded := 2, referenced := 1, successfulFeatures := 1 } ∧
    calculateUsageScore { loaded := 2, referenced := 1, successfulFeatures := 1 } ≤ 1 :=
  (usage_score_spec _).2.2 (by decide) (by decide) (by decide)

/-! ## C9, C10: incrementUsageStat -/

/-- C10.  On an existing, readable file whose content does not begin
with a frontmatter block, `incrementUsageStat` rewrites the file to a
newly installed frontmatter block holding the default metadata with the
named counter set to one (the others zero), followed by a newline and
the original content unchanged as the body. -/
theorem increment_installs_default_frontmatter (fs : Fs) (filePath : String)
    (stat : StatName) (content : String)
    (hget : fsGet fs filePath = some content)
    (hnf : matchFrontmatterL content.data = none) :
    fsGet (incrementUsageStat fs filePath stat) filePath =
      some (serializeFrontmatter
        (bumpStat { tags := [], summary := "", relevantTo := [],
                    importance := 0.5, relatedFiles := [],
                    usageStats := { loaded := 0, referenced := 0,
                                    successfulFeatures := 0 } }
          stat) ++ "\n" ++ content) ∧
    (bumpStat { tags := [], summary := "", relevantTo := [],
                importance := 0.5, relatedFiles := [],
                usageStats := { loaded := 0, referenced := 0,
                                successfulFeatures := 0 } }
      stat).usageStats.get stat = 1 ∧
    ∀ stat' : StatName, stat' ≠ stat →
      (bumpStat { tags := [], summary := "", relevantTo := [],
                  importance := 0.5, relatedFiles := [],
                  usageStats := { loaded := 0, referenced := 0,
                                  successfulFeatures := 0 } }
        stat).usageStats.get stat' = 0 := by
  refine ⟨?_, by cases stat <;> rfl, fun s' hs' => by cases stat <;> cases s' <;>
    first | rfl | exact absurd rfl hs'⟩
  unfold incrementUsageStat
  rw [hget]
  show fsGet (fsSet fs filePath
    (serializeFrontmatter (bumpStat (parseFrontmatter content).1 stat) ++ "\n" ++
      (parseFrontmatter content).2)) filePath = _
  have hp : parseFrontmatter content =
      ({ tags := [], summary := "", relevantTo := [], importance := 0.5,
         relatedFiles := [],
         usageStats := { loaded := 0, referenced := 0, successfulFeatures := 0 } },
       content) := parse_no_frontmatter_default content hnf
  rw [hp]
  exact fsGet_fsSet_self ..

/-- Witness for C10: a plain-text file gets the default frontmatter with
`referenced: 1` installed in front of its untouched content. -/
theorem increment_installs_default_frontmatter_witness :
    fsGet (incrementUsageStat [("n.md", "no frontmatter here")] "n.md"
        StatName.referenced) "n.md" =
      some (serializeFrontmatter
        (bumpStat { tags := [], summary := "", relevantTo := [],
                    importance := 0.5, relatedFiles := [],
                    usageStats := { loaded := 0, referenced := 0,
                                    successfulFeatures := 0 } }
          StatName.referenced) ++ "\n" ++ "no frontmatter here") :=
  (increment_installs_default_frontmatter [("n.md", "no frontmatter here")]
    "n.md" StatName.referenced "no frontmatter here" (by decide) (by decide)).1

/-! ## C8: appendLearning -/

theorem foldl_newline_prefix (xs : List String) (acc : String) :
    ∃ r, xs.foldl (fun a y => a ++ "\n" ++ y) acc = acc ++ r := by
  induction xs generalizing acc with
  | nil => exact ⟨"", (String.append_empty acc).symm⟩
  | cons y ys ih =>
    obtain ⟨r, hr⟩ := ih (acc ++ "\n" ++ y)
    refine ⟨"\n" ++ y ++ r, ?_⟩
    rw [List.foldl_cons]
    show List.foldl (fun a y => a ++ "\n" ++ y) (acc ++ "\n" ++ y) ys = _
    rw [hr]
    simp only [String.append_assoc]

theorem joinLines_newline_head (x0 x : String) (xs : List String)
    (hx : x = "\n" ++ x0) : ∃ r, joinLines (x :: xs) = "\n" ++ r := by
  obtain ⟨r, hr⟩ := foldl_newline_prefix xs x
  refine ⟨x0 ++ r, ?_⟩
  calc joinLines (x :: xs) = x ++ r := hr
    _ = ("\n" ++ x0) ++ r := by rw [hx]
    _ = "\n" ++ (x0 ++ r) := String.append_assoc ..

/-- Every formatted learning starts with a newline character, so
appending `'\n' + formatted` to an existing file puts the entry after a
blank line. -/
theorem formatLearning_newline (date : String) (l : LearningEntry) :
    ∃ r, formatLearning date l = "\n" ++ r := by
  unfold formatLearning
  cases l.type with
  | decision =>
    exact joinLines_newline_head
      ("### " ++ l.content ++ " (" ++ date ++ ")") _ _ rfl
  | gotcha =>
    exact joinLines_newline_head
      ("#### [Gotcha] " ++ l.content ++ " (" ++ date ++ ")") _ _ rfl
  | pattern =>
    exact joinLines_newline_head
      ("#### " ++ "[Pattern]" ++ " " ++ l.content ++ " (" ++ date ++ ")") _ _ rfl
  | learning =>
    exact joinLines_newline_head
      ("#### " ++ "[Learned]" ++ " " ++ l.content ++ " (" ++ date ++ ")") _ _ rfl

/-- C8.  `appendLearning` writes only to the file named by the sanitized
category (with the `general` fallback).  When the file exists, the prior
content is preserved unchanged as a prefix and the formatted entry
follows a blank line.  When it does not exist, the file is created with
the seeded metadata (tags and relevantTo holding the sanitized category,
importance 0.7), a heading with the original category name, and the
formatted entry; a second call for the same brand-new category then
appends instead of recreating the file. -/
theorem append_learning_spec (projectPath date : String)
    (learning : LearningEntry) (fs : Fs) :
    (∀ p, p ≠ getMemoryDir projectPath ++ "/" ++ learningFileName learning.category →
      fsGet (appendLearning projectPath date learning fs) p = fsGet fs p) ∧
    (∀ c, fsGet fs (getMemoryDir projectPath ++ "/" ++
        learningFileName learning.category) = some c →
      fsGet (appendLearning projectPath date learning fs)
          (getMemoryDir projectPath ++ "/" ++ learningFileName learning.category) =
        some (c ++ "\n" ++ formatLearning date learning) ∧
      ∃ r, c ++ "\n" ++ formatLearning date learning = c ++ "\n\n" ++ r) ∧
    (fsGet fs (getMemoryDir projectPath ++ "/" ++
        learningFileName learning.category) = none →
      fsGet (appendLearning projectPath date learning fs)
          (getMemoryDir projectPath ++ "/" ++ learningFileName learning.category) =
        some (serializeFrontmatter
            { tags := [if sanitizeCategory learning.category = "" then "general"
                       else sanitizeCategory learning.category],
              summary := learning.category ++ " implementation decisions and patterns",
              relevantTo := [if sanitizeCategory learning.category = "" then "general"
                             else sanitizeCategory learning.category],
              importance := 0.7, relatedFiles := [],
              usageStats := { loaded := 0, referenced := 0,
                              successfulFeatures := 0 } } ++
          "\n# " ++ learning.category ++ "\n" ++ formatLearning date learning)) ∧
    (fsGet fs (getMemoryDir projectPath ++ "/" ++
        learningFileName learning.category) = none →
      ∀ date2 (learning2 : LearningEntry),
        learning2.category = learning.category →
        fsGet (appendLearning projectPath date2 learning2
            (appendLearning projectPath date learning fs))
            (getMemoryDir projectPath ++ "/" ++ learningFileName learning.category) =
          some ((serializeFrontmatter
              { tags := [if sanitizeCategory learning.category = "" then "general"
                         else sanitizeCategory learning.category],
                summary := learning.category ++ " implementation decisions and patterns",
                relevantTo := [if sanitizeCategory learning.category = "" then "general"
                               else sanitizeCategory learning.category],
                importance := 0.7, relatedFiles := [],
                usageStats := { loaded := 0, referenced := 0,
                                successfulFeatures := 0 } } ++
            "\n# " ++ learning.category ++ "\n" ++ formatLearning date learning) ++
            "\n" ++ formatLearning date2 learning2)) := by
  have hcreate : fsGet fs (getMemoryDir projectPath ++ "/" ++
      learningFileName learning.category) = none →
      appendLearning projectPath date learning fs =
        fsSet fs (getMemoryDir projectPath ++ "/" ++ learningFileName learning.category)
          (serializeFrontmatter
            { tags := [if sanitizeCategory learning.category = "" then "general"
                       else sanitizeCategory learning.category],
              summary := learning.category ++ " implementation decisions and patterns",
              relevantTo := [if sanitizeCategory learning.category = "" then "general"
                             else sanitizeCategory learning.category],
              importance := 0.7, relatedFiles := [],
              usageStats := { loaded := 0, referenced := 0,
                              successfulFeatures := 0 } } ++
          "\n# " ++ learning.category ++ "\n" ++ formatLearning date learning) := by
    intro h
    unfold appendLearning
    dsimp only
    rw [h]
  have happend : ∀ c, fsGet fs (getMemoryDir projectPath ++ "/" ++
      learningFileName learning.category) = some c →
      appendLearning projectPath date learning fs =
        fsSet fs (getMemoryDir projectPath ++ "/" ++ learningFileName learning.category)
          (c ++ "\n" ++ formatLearning date learning) := by
    intro c h
    unfold appendLearning
    dsimp only
    rw [h]
  refine ⟨?_, ?_, ?_, ?_⟩
  · intro p hp
    cases h : fsGet fs (getMemoryDir projectPath ++ "/" ++
        learningFileName learning.category) with
    | none => rw [hcreate h]; exact fsGet_fsSet_ne _ _ _ _ hp
    | some c => rw [happend c h]; exact fsGet_fsSet_ne _ _ _ _ hp
  · intro c h
    rw [happend c h]
    refine ⟨fsGet_fsSet_self .., ?_⟩
    obtain ⟨r, hr⟩ := formatLearning_newline date learning
    refine ⟨r, ?_⟩
    calc c ++ "\n" ++ formatLearning date learning
        = c ++ "\n" ++ ("\n" ++ r) := by rw [hr]
      _ = c ++ ("\n" ++ ("\n" ++ r)) := String.append_assoc ..
      _ = c ++ ("\n\n" ++ r) := rfl
      _ = c ++ "\n\n" ++ r := (String.append_assoc ..).symm
  · intro h
    rw [hcreate h]
    exact fsGet_fsSet_self ..
  · intro h date2 learning2 hcat
    rw [hcreate h]
    have hpath2 : getMemoryDir projectPath ++ "/" ++ learningFileName learning2.category =
        getMemoryDir projectPath ++ "/" ++ learningFileName learning.category := by
      rw [hcat]
    have h2 : fsGet (fsSet fs (getMemoryDir projectPath ++ "/" ++
        learningFileName learning.category)
        (serializeFrontmatter
            { tags := [if sanitizeCategory learning.category = "" then "general"
                       else sanitizeCategory learning.category],
              summary := learning.category ++ " implementation decisions and patterns",
              relevantTo := [if sanitizeCategory learning.category = "" then "general"
                             else sanitizeCategory learning.category],
              importance := 0.7, relatedFiles := [],
              usageStats := { loaded := 0, referenced := 0,
                              successfulFeatures := 0 } } ++
          "\n# " ++ learning.category ++ "\n" ++ formatLearning date learning))
        (getMemoryDir projectPath ++ "/" ++ learningFileName learning2.category) =
        some (serializeFrontmatter
            { tags := [if sanitizeCategory learning.category = "" then "general"
                       else sanitizeCategory learning.category],
              summary := learning.category ++ " implementation decisions and patterns",
              relevantTo := [if sanitizeCategory learning.category = "" then "general"
                             else sanitizeCategory learning.category],
              importance := 0.7, relatedFiles := [],
              usageStats := { loaded := 0, referenced := 0,
                              successfulFeatures := 0 } } ++
          "\n# " ++ learning.category ++ "\n" ++ formatLearning date learning) := by
      rw [hpath2]
      exact fsGet_fsSet_self ..
    unfold appendLearning
    dsimp only
    rw [h2, hpath2]
    exact fsGet_fsSet_self ..

/-- Witness for C8: two `appendLearning` calls for the brand-new
category "API Design" create `api-design.md` once and append the second
entry. -/
theorem append_learning_spec_witness :
    fsGet (appendLearning "/p" "2026-02-02"
        { category := "API Design", type := LearningType.gotcha,
          content := "Trailing slash matters", context := none, why := none,
          rejected := none, tradeoffs := none, breaking := none }
        (appendLearning "/p" "2026-01-01"
          { category := "API Design", type := LearningType.decision,
            content := "Use REST", context := some "ctx", why := none,
            rejected := none, tradeoffs := none, breaking := none } []))
        ("/p/.automaker/memory" ++ "/" ++ learningFileName "API Design") =
      some ((serializeFrontmatter
          { tags := [if sanitizeCategory "API Design" = "" then "general"
                     else sanitizeCategory "API Design"],
            summary := "API Design" ++ " implementation decisions and patterns",
            relevantTo := [if sanitizeCategory "API Design" = "" then "general"
                           else sanitizeCategory "API Design"],
            importance := 0.7, relatedFiles := [],
            usageStats := { loaded := 0, referenced := 0,
                            successfulFeatures := 0 } } ++
        "\n# " ++ "API Design" ++ "\n" ++ formatLearning "2026-01-01"
          { category := "API Design", type := LearningType.decision,
            content := "Use REST", context := some "ctx", why := none,
            rejected := none, tradeoffs := none, breaking := none }) ++
        "\n" ++ formatLearning "2026-02-02"
          { category := "API Design", type := LearningType.gotcha,
            content := "Trailing slash matters", context := none, why := none,
            rejected := none, tradeoffs := none, breaking := none }) :=
  (append_learning_spec "/p" "2026-01-01"
    { category := "API Design", type := LearningType.decision,
      content := "Use REST", context := some "ctx", why := none,
      rejected := none, tradeoffs := none, breaking := none } []).2.2.2
    (by decide) "2026-02-02"
    { category := "API Design", type := LearningType.gotcha,
      content := "Trailing slash matters", context := none, why := none,
      rejected := none, tradeoffs := none, breaking := none } rfl

/-! ## C4: the relevance-score formula -/

/-- Counterexample to C4: with duplicate tags the code's count differs
from the claim's.  For a candidate with tags `[router, router]` (default
importance 0.5, fresh stats) against the task terms `["router"]`, the
pipeline score is `2·3 × 0.5 × 1 = 3` (it counts matching *collection
entries*), while the claim's formula gives `1·3 × 0.5 × 1 = 3/2` (one
task term occurs in the tags). -/
theorem relevance_score_formula_counterexample :
    scoreCandidates [("x.md", "---\ntags: [router, router]\n---\nBody")]
        ["router"] =
      [{ fileName := "x.md", body := "Body",
         metadata := { tags := ["router", "router"], summary := "",
                       relevantTo := [], importance := 0.5, relatedFiles := [],
                       usageStats := { loaded := 0, referenced := 0,
                                       successfulFeatures := 0 } },
         score := 3 }] ∧
    ((claimTaskTermCount ["router"] ["router", "router"] * 3 +
      claimTaskTermCount ["router"] [] * 2 +
      claimTaskTermCount ["router"] (extractTerms "") * 1 +
      claimTaskTermCount ["router"] (categoryTermsOf "x.md") * 4 : Nat) : ℚ) *
      (0.5 : ℚ) * calculateUsageScore { loaded := 0, referenced := 0,
                                        successfulFeatures := 0 } = 3 / 2 ∧
    (3 : ℚ) ≠ 3 / 2 := by
  refine ⟨by decide, by decide, by decide⟩

theorem score_of_mem_scoreCandidates (files : List (String × String))
    (taskTerms : List String) (f : ScoredFile)
    (hf : f ∈ scoreCandidates files taskTerms) :
    f.score = scoreMemoryFile f.fileName f.metadata taskTerms := by
  simp only [scoreCandidates, List.mem_filterMap] at hf
  obtain ⟨a, _, ha⟩ := hf
  split at ha
  · exact absurd ha (by simp)
  · injection ha with ha
    subst ha
    rfl

theorem countMatches_eq_countP (arr1 arr2 : List String) :
    countMatches arr1 arr2 =
      arr1.countP (fun t => decide (∃ u ∈ arr2, jsToLower u = jsToLower t)) := by
  unfold countMatches
  show (arr1.filter (fun t => (arr2.map jsToLower).contains (jsToLower t))).length = _
  rw [List.countP_eq_length_filter]
  congr 1
  apply List.filter_congr
  intro t _
  show (arr2.map jsToLower).contains (jsToLower t) = _
  rw [show (arr2.map jsToLower).contains (jsToLower t) =
      decide ((jsToLower t) ∈ (arr2.map jsToLower)) from List.elem_eq_mem ..]
  simp only [List.mem_map]

/-- C4 (amended).  For every candidate scored by the memory loader with
a non-empty set of task terms, the relevance score equals
`(tagMatches × 3 + relevantToMatches × 2 + summaryMatches × 1 +
categoryMatches × 4) × importance × usageScore`, where each match count
is the number of entries of the respective collection whose lowercase
form equals the lowercase form of some task term (the code counts
collection entries, not task terms — see the counterexample), with
`categoryMatches` using the filename minus `.md` split on
hyphens/underscores keeping pieces longer than two characters; with no
task terms the score is the file's importance alone. -/
theorem relevance_score_formula (files : List (String × String))
    (taskTerms : List String) (f : ScoredFile)
    (hf : f ∈ scoreCandidates files taskTerms) :
    (taskTerms ≠ [] →
      f.score =
        ((f.metadata.tags.countP
            (fun t => decide (∃ u ∈ taskTerms, jsToLower u = jsToLower t)) * 3 +
          f.metadata.relevantTo.countP
            (fun t => decide (∃ u ∈ taskTerms, jsToLower u = jsToLower t)) * 2 +
          (extractTerms f.metadata.summary).countP
            (fun t => decide (∃ u ∈ taskTerms, jsToLower u = jsToLower t)) * 1 +
          (categoryTermsOf f.fileName).countP
            (fun t => decide (∃ u ∈ taskTerms, jsToLower u = jsToLower t)) * 4 : Nat) : ℚ) *
          f.metadata.importance * calculateUsageScore f.metadata.usageStats) ∧
    (taskTerms = [] → f.score = f.metadata.importance) := by
  rw [score_of_mem_scoreCandidates files taskTerms f hf]
  constructor
  · intro hne
    unfold scoreMemoryFile
    rw [if_pos (by simpa [List.length_pos] using hne)]
    simp only [← countMatches_eq_countP]
    push_cast
    ring
  · intro he
    subst he
    rfl

/-- Witness for C4: the formula evaluated on a concrete scored
candidate. -/
theorem relevance_score_formula_witness :
    ({ fileName := "auth-notes.md", body := "Use RS256",
       metadata := { tags := ["auth", "jwt"], summary := "",
                     relevantTo := [], importance := 0.5, relatedFiles := [],
                     usageStats := { loaded := 0, referenced := 0,
                                     successfulFeatures := 0 } },
       score := 7 / 2 } : ScoredFile).score =
      ((["auth", "jwt"].countP
          (fun t => decide (∃ u ∈ ["auth"], jsToLower u = jsToLower t)) * 3 +
        ([] : List String).countP
          (fun t => decide (∃ u ∈ ["auth"], jsToLower u = jsToLower t)) * 2 +
        (extractTerms "").countP
          (fun t => decide (∃ u ∈ ["auth"], jsToLower u = jsToLower t)) * 1 +
        (categoryTermsOf "auth-notes.md").countP
          (fun t => decide (∃ u ∈ ["auth"], jsToLower u = jsToLower t)) * 4 : Nat) : ℚ) *
        (0.5 : ℚ) * calculateUsageScore { loaded := 0, referenced := 0,
                                          successfulFeatures := 0 } :=
  (relevance_score_formula
    [("auth-notes.md", "---\ntags: [auth, jwt]\n---\nUse RS256")] ["auth"]
    { fileName := "auth-notes.md", body := "Use RS256",
      metadata := { tags := ["auth", "jwt"], summary := "",
                    relevantTo := [], importance := 0.5, relatedFiles := [],
                    usageStats := { loaded := 0, referenced := 0,
                                    successfulFeatures := 0 } },
      score := 7 / 2 }
    (by decide)).1 (by decide)

/-! ## C3: the selection policy -/

theorem mem_insertByScore (x y : ScoredFile) (l : List ScoredFile) :
    y ∈ insertByScore x l ↔ y = x ∨ y ∈ l := by
  induction l with
  | nil => simp [insertByScore]
  | cons z zs ih =>
    unfold insertByScore
    split <;> (simp only [List.mem_cons, ih]; try tauto)

theorem mem_sortByScoreDesc (x : ScoredFile) (l : List ScoredFile) :
    x ∈ sortByScoreDesc l ↔ x ∈ l := by
  unfold sortByScoreDesc
  induction l with
  | nil => simp
  | cons z zs ih =>
    simp only [List.foldr_cons, mem_insertByScore, List.mem_cons, ih]

theorem mem_addUnique (sel : List String) (x y : String) (h : x ∈ sel) :
    x ∈ addUnique sel y := by
  unfold addUnique
  split
  · exact h
  · exact List.mem_append_left _ h

theorem length_addUnique_le (sel : List String) (y : String) (maxM : Nat)
    (h : sel.length < maxM) : (addUnique sel y).length ≤ maxM := by
  unfold addUnique
  split
  · exact Nat.le_of_lt h
  · simpa using h

theorem selFold_mem (cond : List String → ScoredFile → Prop)
    [inst : ∀ sel f, Decidable (cond sel f)] (l : List ScoredFile) (x : String) :
    ∀ sel, x ∈ sel →
      x ∈ l.foldl (fun sel f =>
        if cond sel f then addUnique sel f.fileName else sel) sel := by
  induction l with
  | nil => exact fun sel h => h
  | cons f fs ih =>
    intro sel h
    simp only [List.foldl_cons]
    apply ih
    split
    · exact mem_addUnique _ _ _ h
    · exact h

theorem selFold_length (cond : List String → ScoredFile → Prop)
    [inst : ∀ sel f, Decidable (cond sel f)] (l : List ScoredFile) (maxM : Nat)
    (hc : ∀ sel f, cond sel f → sel.length < maxM) :
    ∀ sel, sel.length ≤ maxM →
      (l.foldl (fun sel f =>
        if cond sel f then addUnique sel f.fileName else sel) sel).length ≤ maxM := by
  induction l with
  | nil => exact fun sel h => h
  | cons f fs ih =>
    intro sel h
    simp only [List.foldl_cons]
    apply ih
    split
    · next hcond => exact length_addUnique_le _ _ _ (hc _ _ hcond)
    · exact h

/-- C3.  The memory selection of `loadContextFiles` satisfies the
selection policy: with `maxMemoryFiles = 0` nothing is selected; with
`maxMemoryFiles > 0` the selection contains `gotchas.md` whenever it is
among the candidates (files with a non-empty body after frontmatter
stripping and trimming) and never exceeds `maxMemoryFiles` names.  In
the concrete scenarios: `gotchas.md` plus four candidates scoring 0
against the task terms with `maxMemoryFiles = 1` select exactly
`{gotchas.md}`, and ten candidates of importance 0.95 with
`maxMemoryFiles = 3` select exactly three. -/
theorem selection_policy :
    (∀ (files : List (String × String)) (tc : Option TaskContext),
      loadMemorySelection files tc 0 = []) ∧
    (∀ (files : List (String × String)) (tc : Option TaskContext) (maxM : Nat),
      0 < maxM →
      ((∃ f ∈ scoreCandidates files (taskTermsOf tc), f.fileName = "gotchas.md") →
        "gotchas.md" ∈ loadMemorySelection files tc maxM) ∧
      (loadMemorySelection files tc maxM).length ≤ maxM) ∧
    loadMemorySelection gotchasScenarioFiles
      (some { title := "zookeeper", description := none }) 1 = ["gotchas.md"] ∧
    (loadMemorySelection capScenarioFiles none 3).length = 3 := by
  refine ⟨fun files tc => by simp [loadMemorySelection, selectNames], ?_,
    by decide, by decide⟩
  intro files tc maxM hmax
  unfold loadMemorySelection selectNames
  rw [if_pos hmax]
  dsimp only
  constructor
  · intro ⟨f, hf, hname⟩
    have hf' : f ∈ sortByScoreDesc (scoreCandidates files (taskTermsOf tc)) :=
      (mem_sortByScoreDesc ..).mpr hf
    cases hfind : (sortByScoreDesc (scoreCandidates files (taskTermsOf tc))).find?
        (fun f => f.fileName = "gotchas.md") with
    | none =>
      exact absurd (decide_eq_true hname)
        (List.find?_eq_none.mp hfind f hf')
    | some g =>
      have hmem0 : "gotchas.md" ∈ addUnique [] "gotchas.md" := by decide
      split
      · exact selFold_mem (fun sel f => 0 < f.score ∧ sel.length < maxM) _ _ _
          (selFold_mem (fun sel f => f.metadata.importance ≥ 0.9 ∧ sel.length < maxM)
            _ _ _ hmem0)
      · exact selFold_mem (fun sel f => f.metadata.importance ≥ 0.9 ∧ sel.length < maxM)
          _ _ _ hmem0
  · have hlen0 : ∀ o : Option ScoredFile,
        (match o with
         | some _ => addUnique [] "gotchas.md"
         | none => ([] : List String)).length ≤ maxM := by
      intro o
      cases o
      · exact Nat.zero_le maxM
      · exact hmax
    have h1 := selFold_length
      (fun sel f => f.metadata.importance ≥ 0.9 ∧ sel.length < maxM)
      (sortByScoreDesc (scoreCandidates files (taskTermsOf tc))) maxM
      (fun _ _ h => h.2) _ (hlen0 ((sortByScoreDesc
        (scoreCandidates files (taskTermsOf tc))).find?
        (fun f => f.fileName = "gotchas.md")))
    split
    · exact selFold_length
        (fun sel f => 0 < f.score ∧ sel.length < maxM)
        (sortByScoreDesc (scoreCandidates files (taskTermsOf tc))) maxM
        (fun _ _ h => h.2) _ h1
    · exact h1

/-- Witness for C3: in the gotchas scenario the selection contains
`gotchas.md` and respects the cap of one. -/
theorem selection_policy_witness :
    "gotchas.md" ∈ loadMemorySelection gotchasScenarioFiles
      (some { title := "zookeeper", description := none }) 1 ∧
    (loadMemorySelection gotchasScenarioFiles
      (some { title := "zookeeper", description := none }) 1).length ≤ 1 :=
  ⟨(selection_policy.2.1 gotchasScenarioFiles
      (some { title := "zookeeper", description := none }) 1 (by decide)).1
      (by decide),
   (selection_policy.2.1 gotchasScenarioFiles
      (some { title := "zookeeper", description := none }) 1 (by decide)).2⟩

/-! ## C1: round-trip — counterexample and support lemmas -/

set_option maxRecDepth 4000 in
/-- Counterexample to C1: the round trip fails for a body beginning with
a newline, even with fully default (certainly producible: it is returned
for the empty input) metadata — the closing delimiter's greedy
`\s*\r?\n` swallows the body's leading blank line, so the body comes
back as `"x"` instead of `"\nx"` (the reparsed metadata also differs:
the empty serialized summary line makes the summary regex capture the
following `relevantTo` line). -/
theorem frontmatter_roundtrip_counterexample :
    (parseFrontmatter "").1 = createDefaultMetadata ∧
    (parseFrontmatter (serializeFrontmatter createDefaultMetadata ++
      "\n" ++ "\nx")).2 ≠ "\nx" ∧
    (parseFrontmatter (serializeFrontmatter createDefaultMetadata ++
      "\n" ++ "\nx")).2 = "x" := by
  refine ⟨by decide, by decide, by decide⟩

theorem prefix_append_cases (kw X B : List Char) (h : kw <+: X ++ B) :
    (kw <+: X) ∨ (∃ kw2, kw = X ++ kw2 ∧ kw2 <+: B) := by
  rcases Nat.le_total kw.length X.length with hle | hle
  · exact Or.inl (List.prefix_of_prefix_length_le h (List.prefix_append X B) hle)
  · have hX : X <+: kw :=
      List.prefix_of_prefix_length_le (List.prefix_append X B) h hle
    obtain ⟨kw2, hkw2⟩ := hX
    refine Or.inr ⟨kw2, hkw2.symm, ?_⟩
    rw [← hkw2] at h
    exact (List.prefix_append_right_inj X).mp h

/-- No occurrence of `kw` spans from `A` into `B` (nor lies inside
either) when `B` starts with a character outside `kw`. -/
theorem not_infix_append_right (kw A B : List Char) (hA : ¬ kw <:+: A)
    (hB : ¬ kw <:+: B) (c : Char) (hhead : B.head? = some c) (hc : c ∉ kw) :
    ¬ kw <:+: (A ++ B) := by
  induction A with
  | nil => simpa using hB
  | cons a A ih =>
    intro h
    rw [List.cons_append] at h
    rcases List.infix_cons_iff.mp h with hpre | hinf
    · rw [← List.cons_append] at hpre
      rcases prefix_append_cases kw (a :: A) B hpre with h1 | ⟨kw2, hkw2, hpre2⟩
      · exact hA h1.isInfix
      · rcases kw2 with _ | ⟨d, kw2t⟩
        · rw [List.append_nil] at hkw2
          exact hA (hkw2 ▸ List.infix_refl kw)
        · obtain ⟨t, ht⟩ := hpre2
          have hd : d = c := by
            rw [← ht] at hhead
            simpa using hhead
          apply hc
          rw [hkw2, hd]
          exact List.mem_append_right _ (List.mem_cons_self _ _)
    · exact ih (fun hh => hA (List.infix_cons hh)) hinf

/-- Mirror of `not_infix_append_right` with the blocking character at
the end of `A`. -/
theorem not_infix_append_left (kw A B : List Char) (hA : ¬ kw <:+: A)
    (hB : ¬ kw <:+: B) (c : Char) (hlast : A.getLast? = some c) (hc : c ∉ kw) :
    ¬ kw <:+: (A ++ B) := by
  intro h
  have h' : kw.reverse <:+: (B.reverse ++ A.reverse) := by
    rw [← List.reverse_append]
    exact List.reverse_infix.mpr h
  refine not_infix_append_right kw.reverse B.reverse A.reverse
    (fun hh => hB (List.reverse_infix.mp hh))
    (fun hh => hA (List.reverse_infix.mp hh)) c ?_ ?_ h'
  · rw [List.head?_reverse]
    exact hlast
  · intro hmem
    exact hc (List.mem_reverse.mp hmem)

/-- An occurrence needs every character of `kw`; a list whose characters
all avoid some character of `kw` cannot contain it. -/
theorem not_infix_of_forbidden (kw l : List Char) (c : Char) (hc : c ∈ kw)
    (hl : c ∉ l) : ¬ kw <:+: l :=
  fun h => hl (h.subset hc)

/-- No nonempty suffix of `A` starts an occurrence of `kw` reaching into
`B`, when `kw` does not occur in `A` and `A` ends with a character
outside `kw`. -/
theorem kw_not_prefix_suffix (kw A B : List Char) (hkwA : ¬ kw <:+: A)
    (c : Char) (hlast : A.getLast? = some c) (hc : c ∉ kw) :
    ∀ A', A' ≠ [] → A' <:+ A → ¬ kw <+: (A' ++ B) := by
  intro A' hne hsuff hpre
  rcases prefix_append_cases kw A' B hpre with h1 | ⟨kw2, hkw2, _⟩
  · exact hkwA (h1.isInfix.trans hsuff.isInfix)
  · obtain ⟨C, hC⟩ := hsuff
    have hlast' : A'.getLast? = some c := by
      rw [← hC] at hlast
      rwa [List.getLast?_append_of_ne_nil C hne] at hlast
    have hmem : c ∈ A' := List.mem_of_getLast?_eq_some hlast'
    apply hc
    rw [hkw2]
    exact List.mem_append_left _ hmem

theorem firstSome_cons_none (f : List Char → Option α) (a : Char) (t : List Char)
    (h : f (a :: t) = none) : firstSome f (a :: t) = firstSome f t := by
  conv_lhs => rw [firstSome]
  rw [h]

theorem firstSome_append (f : List Char → Option α) (A B : List Char)
    (h : ∀ A', A' ≠ [] → A' <:+ A → f (A' ++ B) = none) :
    firstSome f (A ++ B) = firstSome f B := by
  induction A with
  | nil => rfl
  | cons a A ih =>
    have h0 : f (a :: (A ++ B)) = none := by
      have := h (a :: A) (by simp) (List.suffix_refl _)
      rwa [List.cons_append] at this
    rw [List.cons_append, firstSome_cons_none f a (A ++ B) h0]
    exact ih (fun A' hne hs => h A' hne (hs.trans (List.suffix_cons a A)))

theorem firstSome_of_here (f : List Char → Option α) (l : List Char) (a : α)
    (h : f l = some a) : firstSome f l = some a := by
  cases l with
  | nil => exact h
  | cons c t =>
    unfold firstSome
    rw [h]

theorem matchBracketHere_none (kw l : List Char) (h : ¬ kw <+: l) :
    matchBracketHere kw l = none := by
  unfold matchBracketHere
  rw [if_neg (by simpa [List.isPrefixOf_iff_prefix] using h)]

theorem matchLineHere_none (kw l : List Char) (h : ¬ kw <+: l) :
    matchLineHere kw l = none := by
  unfold matchLineHere
  rw [if_neg (by simpa [List.isPrefixOf_iff_prefix] using h)]

theorem matchClassHere_none (good : Char → Bool) (kw l : List Char)
    (h : ¬ kw <+: l) : matchClassHere good kw l = none := by
  unfold matchClassHere
  rw [if_neg (by simpa [List.isPrefixOf_iff_prefix] using h)]

theorem scanToRBracket_append (J r : List Char)
    (hJ : ∀ c ∈ J, c ≠ ']' ∧ isLineTerm c = false) :
    scanToRBracket (J ++ ']' :: r) = some J := by
  induction J with
  | nil => rfl
  | cons c J ih =>
    have hc := hJ c (List.mem_cons_self ..)
    rw [List.cons_append]
    unfold scanToRBracket
    rw [if_neg (by simpa using hc.1), if_neg (by simp [hc.2]),
      ih (fun d hd => hJ d (List.mem_cons_of_mem _ hd))]
    rfl

theorem takeLine_append (E r : List Char) (hE : ∀ c ∈ E, isLineTerm c = false) :
    takeLine (E ++ '\n' :: r) = E := by
  unfold takeLine
  rw [List.takeWhile_append_of_pos (by simpa using hE)]
  simp [isLineTerm]

theorem matchBracketHere_at (kw J rest : List Char)
    (hJ : ∀ c ∈ J, c ≠ ']' ∧ isLineTerm c = false) :
    matchBracketHere kw (kw ++ ' ' :: '[' :: (J ++ ']' :: rest)) = some J := by
  unfold matchBracketHere
  rw [if_pos (by simp [List.isPrefixOf_iff_prefix, List.prefix_append]),
    List.drop_left]
  show scanToRBracket (J ++ ']' :: rest) = some J
  exact scanToRBracket_append J rest hJ

theorem wsRunLen_space_cons (e : Char) (t : List Char) (he : isJsWS e = false) :
    wsRunLen (' ' :: e :: t) = 1 := by
  show (if isJsWS ' ' then wsRunLen (e :: t) + 1 else 0) = 1
  rw [if_pos (by decide)]
  show (if isJsWS e then wsRunLen t + 1 else 0) + 1 = 1
  rw [if_neg (by simp [he])]

theorem matchLineHere_at (kw : List Char) (e : Char) (E rest : List Char)
    (he : isJsWS e = false) (hE : ∀ c ∈ e :: E, isLineTerm c = false) :
    matchLineHere kw (kw ++ ' ' :: e :: (E ++ '\n' :: rest)) = some (e :: E) := by
  unfold matchLineHere
  rw [if_pos (by simp [List.isPrefixOf_iff_prefix, List.prefix_append]),
    List.drop_left]
  show tryLineFrom (' ' :: e :: (E ++ '\n' :: rest))
    (wsRunLen (' ' :: e :: (E ++ '\n' :: rest))) = some (e :: E)
  rw [wsRunLen_space_cons e _ he]
  show (match (' ' :: e :: (E ++ '\n' :: rest)).get? 1 with
    | some c =>
      if !isLineTerm c then
        some (takeLine ((' ' :: e :: (E ++ '\n' :: rest)).drop 1))
      else tryLineFrom (' ' :: e :: (E ++ '\n' :: rest)) 0
    | none => tryLineFrom (' ' :: e :: (E ++ '\n' :: rest)) 0) = some (e :: E)
  show (if !isLineTerm e then
      some (takeLine (e :: (E ++ '\n' :: rest)))
    else tryLineFrom (' ' :: e :: (E ++ '\n' :: rest)) 0) = some (e :: E)
  rw [if_pos (by simp [hE e (List.mem_cons_self ..)])]
  rw [show e :: (E ++ '\n' :: rest) = (e :: E) ++ '\n' :: rest from rfl,
    takeLine_append _ _ hE]

theorem matchClassHere_at (good : Char → Bool) (kw : List Char) (d : Char)
    (D rest : List Char) (hd : isJsWS d = false) (hnl : good '\n' = false)
    (hD : ∀ c ∈ d :: D, good c = true) :
    matchClassHere good kw (kw ++ ' ' :: d :: (D ++ '\n' :: rest)) =
      some (d :: D) := by
  unfold matchClassHere
  rw [if_pos (by simp [List.isPrefixOf_iff_prefix, List.prefix_append]),
    List.drop_left]
  show (match (' ' :: d :: (D ++ '\n' :: rest)).get?
      (wsRunLen (' ' :: d :: (D ++ '\n' :: rest))) with
    | some c =>
      if good c then
        some (((' ' :: d :: (D ++ '\n' :: rest)).drop
          (wsRunLen (' ' :: d :: (D ++ '\n' :: rest)))).takeWhile good)
      else none
    | none => none) = some (d :: D)
  rw [wsRunLen_space_cons d _ hd]
  show (if good d then some ((d :: (D ++ '\n' :: rest)).takeWhile good)
    else none) = some (d :: D)
  rw [if_pos (hD d (List.mem_cons_self ..)),
    show d :: (D ++ '\n' :: rest) = (d :: D) ++ '\n' :: rest from rfl,
    List.takeWhile_append_of_pos hD]
  simp [List.takeWhile_cons, hnl]

theorem intercalate_go_data (sep : String) (as : List String) : ∀ acc : String,
    (String.intercalate.go acc sep as).data =
      acc.data ++ as.flatMap (fun a => sep.data ++ a.data) := by
  induction as with
  | nil => intro acc; simp [String.intercalate.go]
  | cons a as ih =>
    intro acc
    rw [String.intercalate.go, ih]
    simp [String.data_append, List.append_assoc]

theorem jnItems_cons (x : String) (t : List String) :
    jnItems (x :: t) = (escapeYamlString x).data ++
      t.flatMap (fun a => ',' :: ' ' :: (escapeYamlString a).data) := by
  unfold jnItems
  rw [List.map_cons]
  show (String.intercalate.go (escapeYamlString x) ", "
    (t.map escapeYamlString)).data = _
  rw [intercalate_go_data, List.flatMap_map]
  rfl

theorem flatMap_id_of_no_quote (l : List Char) (hq : '"' ∉ l) :
    l.flatMap (fun c => if c = '"' then ['\\', '"'] else [c]) = l := by
  induction l with
  | nil => rfl
  | cons c t ih =>
    rw [List.flatMap_cons,
      if_neg (fun h : c = '"' => hq (by rw [← h]; exact List.mem_cons_self ..)),
      ih (fun h => hq (List.mem_cons_of_mem _ h))]
    rfl

theorem escape_data (x : String) (hq : '"' ∉ x.data) :
    (escapeYamlString x).data = x.data ∨
      (escapeYamlString x).data = '"' :: (x.data ++ ['"']) := by
  unfold escapeYamlString
  split
  · right
    show "\"".data ++
      x.data.flatMap (fun c => if c = '"' then ['\\', '"'] else [c]) ++
      "\"".data = _
    rw [flatMap_id_of_no_quote x.data hq]
    rfl
  · left; rfl

theorem splitComma_ne_nil (l : List Char) : splitComma l ≠ [] := by
  cases l with
  | nil => simp [splitComma]
  | cons c t =>
    unfold splitComma
    rcases h : splitComma t with _ | ⟨p, ps⟩
    · simp
    · dsimp only; split <;> simp

theorem splitComma_append (A l p : List Char) (ps : List (List Char))
    (hA : ∀ c ∈ A, c ≠ ',') (h : splitComma l = p :: ps) :
    splitComma (A ++ l) = (A ++ p) :: ps := by
  induction A with
  | nil => simpa using h
  | cons a A ih =>
    rw [List.cons_append]
    unfold splitComma
    rw [ih (fun c hc => hA c (List.mem_cons_of_mem _ hc))]
    dsimp only
    rw [if_neg (hA a (List.mem_cons_self ..))]
    rfl

theorem splitComma_noComma (l : List Char) (h : ∀ c ∈ l, c ≠ ',') :
    splitComma l = [l] := by
  have h2 : splitComma ([] : List Char) = [] :: [] := rfl
  have := splitComma_append l [] [] [] h h2
  simpa using this

theorem splitComma_comma_cons (t p : List Char) (ps : List (List Char))
    (h : splitComma t = p :: ps) : splitComma (',' :: t) = [] :: p :: ps := by
  unfold splitComma
  rw [h]
  dsimp only
  rw [if_pos rfl]

theorem split_flat (ts : List String)
    (h : ∀ x ∈ ts, ∀ c ∈ (escapeYamlString x).data, c ≠ ',') :
    splitComma (ts.flatMap (fun a => ',' :: ' ' :: (escapeYamlString a).data)) =
      [] :: ts.map (fun a => ' ' :: (escapeYamlString a).data) := by
  induction ts with
  | nil => rfl
  | cons a ts ih =>
    rw [List.flatMap_cons]
    have hrec := ih (fun x hx => h x (List.mem_cons_of_mem _ hx))
    have hmid : splitComma ((' ' :: (escapeYamlString a).data) ++
        ts.flatMap (fun a => ',' :: ' ' :: (escapeYamlString a).data)) =
        ((' ' :: (escapeYamlString a).data) ++ []) ::
          ts.map (fun a => ' ' :: (escapeYamlString a).data) := by
      refine splitComma_append _ _ [] _ ?_ hrec
      intro c hc
      rcases List.mem_cons.mp hc with hc | hc
      · subst hc; decide
      · exact h a (List.mem_cons_self ..) c hc
    rw [show (',' :: ' ' :: (escapeYamlString a).data) ++
        ts.flatMap (fun a => ',' :: ' ' :: (escapeYamlString a).data) =
        ',' :: ((' ' :: (escapeYamlString a).data) ++
          ts.flatMap (fun a => ',' :: ' ' :: (escapeYamlString a).data)) from rfl]
    rw [splitComma_comma_cons _ _ _ hmid, List.map_cons]
    simp

theorem dropWhile_eq_self_of_head (p : Char → Bool) (l : List Char)
    (h : ∀ c, l.head? = some c → p c = false) : l.dropWhile p = l := by
  cases l with
  | nil => rfl
  | cons c t => rw [List.dropWhile_cons, if_neg (by simp [h c rfl])]

theorem jsTrimL_id (l : List Char)
    (h1 : ∀ c, l.head? = some c → isJsWS c = false)
    (h2 : ∀ c, l.getLast? = some c → isJsWS c = false) : jsTrimL l = l := by
  unfold jsTrimL
  rw [dropWhile_eq_self_of_head _ _ h1]
  rw [dropWhile_eq_self_of_head _ _ (fun c hc =>
    h2 c (by rwa [List.head?_reverse] at hc))]
  exact List.reverse_reverse l

theorem jsTrimL_cons_space (l : List Char) : jsTrimL (' ' :: l) = jsTrimL l := rfl

theorem removeQuotesL_id (l : List Char) (h : ∀ c ∈ l, c ≠ '"' ∧ c ≠ '\'') :
    removeQuotesL l = l := by
  unfold removeQuotesL
  rw [List.filter_eq_self.mpr]
  intro a ha
  simp [(h a ha).1, (h a ha).2]

theorem escape_mem (x : String) (hq : '"' ∉ x.data) (c : Char)
    (hc : c ∈ (escapeYamlString x).data) : c = '"' ∨ c ∈ x.data := by
  rcases escape_data x hq with h | h <;> rw [h] at hc
  · exact Or.inr hc
  · rcases List.mem_cons.mp hc with h1 | h1
    · exact Or.inl h1
    · rcases List.mem_append.mp h1 with h2 | h2
      · exact Or.inr h2
      · exact Or.inl (by simpa using h2)

theorem trimmed_head_not_ws (l : List Char) (ht : jsTrimL l = l) :
    ∀ c, l.head? = some c → isJsWS c = false := by
  intro c hc
  cases l with
  | nil => simp at hc
  | cons a t =>
    obtain rfl : a = c := by simpa using hc
    by_contra hws
    have hws' : isJsWS a = true := by simpa using hws
    have hlen : (jsTrimL (a :: t)).length ≤ t.length := by
      unfold jsTrimL
      rw [List.dropWhile_cons, if_pos hws']
      rw [List.length_reverse]
      calc ((t.dropWhile isJsWS).reverse.dropWhile isJsWS).length
          ≤ (t.dropWhile isJsWS).reverse.length :=
            (List.dropWhile_suffix isJsWS).sublist.length_le
        _ = (t.dropWhile isJsWS).length := List.length_reverse _
        _ ≤ t.length := (List.dropWhile_suffix isJsWS).sublist.length_le
    rw [ht] at hlen
    simp at hlen

theorem data_ne_nil (y : String) (h : y ≠ "") : y.data ≠ [] := by
  intro hd
  apply h
  cases y with
  | mk d =>
    simp only at hd
    subst hd
    rfl

theorem item_piece (x : String) (hx : CleanItem x) :
    removeQuotesL (jsTrimL (escapeYamlString x).data) = x.data := by
  obtain ⟨hne, htrim, hchars, -⟩ := hx
  have hq : '"' ∉ x.data := fun h => (hchars _ h).2.1 rfl
  rcases escape_data x hq with h | h <;> rw [h]
  · rw [htrim]
    exact removeQuotesL_id _ (fun c hc =>
      ⟨(hchars c hc).2.1, (hchars c hc).2.2.1⟩)
  · rw [show ('"' :: (x.data ++ ['"'])) = ('"' :: x.data) ++ ['"'] from rfl]
    rw [jsTrimL_id]
    · unfold removeQuotesL
      rw [show ('"' :: x.data) ++ ['"'] = '"' :: (x.data ++ ['"']) from rfl]
      rw [List.filter_cons_of_neg (by decide), List.filter_append]
      rw [List.filter_eq_self.mpr (fun c hc => by
        simp [(hchars c hc).2.1, (hchars c hc).2.2.1])]
      simp
    · intro c hc
      obtain rfl : '"' = c := by simpa using hc
      decide
    · intro c hc
      rw [List.getLast?_concat] at hc
      obtain rfl : '"' = c := by simpa using hc
      decide

theorem splitComma_jnItems (x : String) (t : List String)
    (h : ∀ y ∈ x :: t, CleanItem y) :
    splitComma (jnItems (x :: t)) = (escapeYamlString x).data ::
      t.map (fun a => ' ' :: (escapeYamlString a).data) := by
  have hx := h x (List.mem_cons_self ..)
  have hq : '"' ∉ x.data := fun hm => (hx.2.2.1 _ hm).2.1 rfl
  have hflat := split_flat t (fun y hy c hc => by
    have hyc := h y (List.mem_cons_of_mem _ hy)
    have hqy : '"' ∉ y.data := fun hm => (hyc.2.2.1 _ hm).2.1 rfl
    rcases escape_mem y hqy c hc with rfl | hcm
    · decide
    · exact (hyc.2.2.1 _ hcm).2.2.2.1)
  rw [jnItems_cons]
  have := splitComma_append (escapeYamlString x).data _ [] _
    (fun c hc => by
      rcases escape_mem x hq c hc with rfl | hcm
      · decide
      · exact (hx.2.2.1 _ hcm).2.2.2.1) hflat
  simpa using this

theorem parseBracketList_jnItems (xs : List String)
    (h : ∀ x ∈ xs, CleanItem x) : parseBracketList (jnItems xs) = xs := by
  cases xs with
  | nil => rfl
  | cons x t =>
    unfold parseBracketList
    rw [splitComma_jnItems x t h, List.map_cons,
      item_piece x (h x (List.mem_cons_self ..))]
    have hmap : (t.map (fun a => ' ' :: (escapeYamlString a).data)).map
        (fun tp => removeQuotesL (jsTrimL tp)) = t.map (fun a => a.data) := by
      rw [List.map_map]
      apply List.map_congr_left
      intro a ha
      show removeQuotesL (jsTrimL (' ' :: (escapeYamlString a).data)) = a.data
      rw [jsTrimL_cons_space]
      exact item_piece a (h a (List.mem_cons_of_mem _ ha))
    rw [hmap]
    rw [List.filter_cons_of_pos (by
      simpa using List.length_pos.mpr
        (data_ne_nil x (h x (List.mem_cons_self ..)).1))]
    rw [List.filter_eq_self.mpr (fun l hl => by
      obtain ⟨a, ha, rfl⟩ := List.mem_map.mp hl
      simpa using List.length_pos.mpr
        (data_ne_nil a (h a (List.mem_cons_of_mem _ ha)).1))]
    rw [List.map_cons, List.map_map]
    rw [show ((fun l => (⟨l⟩ : String)) ∘ fun a => a.data) = id from rfl,
      List.map_id]

theorem fmData_S2 (m : MemoryMetadata) : fmData m = fmS2 m := by
  simp only [fmData, fmS2, fmS3, fmS4, fmS5, fmS6, fmS7, fmS8, fmS9,
    List.append_assoc, List.cons_append, List.nil_append]
  rfl

theorem fmData_A3_S3 (m : MemoryMetadata) : fmData m = fmA3 m ++ fmS3 m := by
  simp only [fmData, fmA3, fmS3, fmS4, fmS5, fmS6, fmS7, fmS8, fmS9,
    List.append_assoc, List.cons_append, List.nil_append]
  rfl

theorem fmData_A4_S4 (m : MemoryMetadata) : fmData m = fmA4 m ++ fmS4 m := by
  simp only [fmData, fmA3, fmA4, fmS4, fmS5, fmS6, fmS7, fmS8, fmS9,
    List.append_assoc, List.cons_append, List.nil_append]
  rfl

theorem fmData_A5_S5 (m : MemoryMetadata) : fmData m = fmA5 m ++ fmS5 m := by
  simp only [fmData, fmA3, fmA4, fmA5, fmS5, fmS6, fmS7, fmS8, fmS9,
    List.append_assoc, List.cons_append, List.nil_append]
  rfl

theorem fmData_A6_S6 (m : MemoryMetadata) : fmData m = fmA6 m ++ fmS6 m := by
  simp only [fmData, fmA3, fmA4, fmA5, fmA6, fmS6, fmS7, fmS8, fmS9,
    List.append_assoc, List.cons_append, List.nil_append]
  rfl

theorem fmData_A7_S7 (m : MemoryMetadata) : fmData m = fmA7 m ++ fmS7 m := by
  simp only [fmData, fmA3, fmA4, fmA5, fmA7, fmS7, fmS8, fmS9,
    List.append_assoc, List.cons_append, List.nil_append]
  rfl

theorem fmData_A8_S8 (m : MemoryMetadata) : fmData m = fmA8 m ++ fmS8 m := by
  simp only [fmData, fmA3, fmA4, fmA5, fmA7, fmA8, fmS8, fmS9,
    List.append_assoc, List.cons_append, List.nil_append]
  rfl

theorem fmData_A9_S9 (m : MemoryMetadata) : fmData m = fmA9 m ++ fmS9 m := by
  simp only [fmData, fmA3, fmA4, fmA5, fmA7, fmA8, fmA9, fmS9,
    List.append_assoc, List.cons_append, List.nil_append]
  rfl

theorem digitVal_ofNat (r : Nat) (h : r < 10) :
    digitVal (Char.ofNat ('0'.toNat + r)) = r := by
  interval_cases r <;> decide

theorem ofNat_mem_decDigits (r : Nat) (h : r < 10) :
    Char.ofNat ('0'.toNat + r) ∈ decDigits := by
  interval_cases r <;> decide

theorem parseNat_append_digit (A : List Char) (c : Char) :
    parseNatDigits (A ++ [c]) = parseNatDigits A * 10 + digitVal c := by
  unfold parseNatDigits
  rw [List.foldl_append]
  rfl

theorem natToDecAux_spec : ∀ fuel n, n < fuel →
    natToDecAux fuel n ≠ [] ∧ (∀ c ∈ natToDecAux fuel n, c ∈ decDigits) ∧
      parseNatDigits (natToDecAux fuel n) = n := by
  intro fuel
  induction fuel with
  | zero => intro n h; omega
  | succ f ih =>
    intro n h
    unfold natToDecAux
    by_cases h10 : n < 10
    · rw [if_pos h10]
      refine ⟨by simp, ?_, ?_⟩
      · intro c hc
        obtain rfl : c = Char.ofNat ('0'.toNat + n) := by simpa using hc
        exact ofNat_mem_decDigits n h10
      · show parseNatDigits ([] ++ [Char.ofNat ('0'.toNat + n)]) = n
        rw [parseNat_append_digit]
        show 0 * 10 + digitVal (Char.ofNat ('0'.toNat + n)) = n
        rw [digitVal_ofNat n h10]
        omega
    · rw [if_neg h10]
      have hdiv : n / 10 < f := by
        have h1 : n / 10 < n := Nat.div_lt_self (by omega) (by omega)
        omega
      obtain ⟨hne, hmem, hval⟩ := ih (n / 10) hdiv
      refine ⟨by simp [hne], ?_, ?_⟩
      · intro c hc
        rcases List.mem_append.mp hc with hc | hc
        · exact hmem c hc
        · obtain rfl : c = Char.ofNat ('0'.toNat + n % 10) := by simpa using hc
          exact ofNat_mem_decDigits _ (Nat.mod_lt _ (by omega))
      · rw [parseNat_append_digit, hval, digitVal_ofNat _ (Nat.mod_lt _ (by omega))]
        omega

theorem natToDec_ne_nil (n : Nat) : natToDec n ≠ [] :=
  (natToDecAux_spec (n + 1) n (by omega)).1

theorem natToDec_digits (n : Nat) : ∀ c ∈ natToDec n, c ∈ decDigits :=
  (natToDecAux_spec (n + 1) n (by omega)).2.1

theorem parseNat_natToDec (n : Nat) : parseNatDigits (natToDec n) = n :=
  (natToDecAux_spec (n + 1) n (by omega)).2.2

theorem natToDecAux_length : ∀ fuel n k, n < fuel → n < 10 ^ (k + 1) →
    (natToDecAux fuel n).length ≤ k + 1 := by
  intro fuel
  induction fuel with
  | zero => intro n k h; omega
  | succ f ih =>
    intro n k h hk
    unfold natToDecAux
    by_cases h10 : n < 10
    · rw [if_pos h10]; simp
    · rw [if_neg h10]
      cases k with
      | zero => simp at hk; omega
      | succ k' =>
        have hdiv : n / 10 < f := by
          have h1 : n / 10 < n := Nat.div_lt_self (by omega) (by omega)
          omega
        have hk' : n / 10 < 10 ^ (k' + 1) := by
          rw [Nat.div_lt_iff_lt_mul (by omega)]
          calc n < 10 ^ (k' + 2) := hk
            _ = 10 ^ (k' + 1) * 10 := by ring
        have := ih (n / 10) k' hdiv hk'
        simp only [List.length_append, List.length_cons, List.length_nil]
        omega

theorem natToDec_length (n k : Nat) (h : n < 10 ^ (k + 1)) :
    (natToDec n).length ≤ k + 1 :=
  natToDecAux_length (n + 1) n k (by omega) h

theorem parseNat_padZeros (k : Nat) (l : List Char) :
    parseNatDigits (padZeros k l) = parseNatDigits l := by
  unfold padZeros parseNatDigits
  rw [List.foldl_append]
  have : ∀ m, List.foldl (fun acc c => acc * 10 + digitVal c) 0
      (List.replicate m '0') = 0 := by
    intro m
    induction m with
    | zero => rfl
    | succ m ihm =>
      rw [List.replicate_succ, List.foldl_cons]
      simpa using ihm
  rw [this]

theorem padZeros_length (k : Nat) (l : List Char) (h : l.length ≤ k) :
    (padZeros k l).length = k := by
  simp only [padZeros, List.length_append, List.length_replicate]
  omega

theorem padZeros_digits (k : Nat) (l : List Char) (h : ∀ c ∈ l, c ∈ decDigits) :
    ∀ c ∈ padZeros k l, c ∈ decDigits := by
  intro c hc
  rcases List.mem_append.mp hc with hc | hc
  · obtain rfl : '0' = c := by simpa using (List.eq_of_mem_replicate hc).symm
    decide
  · exact h c hc

theorem decPow_dvd (d k : Nat) (h : decPow d = some k) : 10 ^ k % d = 0 := by
  unfold decPow at h
  have hm : k ∈ (List.range 7).filter (fun k => 10 ^ k % d = 0) :=
    List.mem_of_mem_head? (by simp [h])
  have := List.of_mem_filter hm
  simpa using this

theorem decPow_some (d : Nat) (hd : d ∣ 10 ^ 6) : ∃ k, decPow d = some k := by
  unfold decPow
  cases hh : ((List.range 7).filter (fun k => 10 ^ k % d = 0)).head? with
  | some k => exact ⟨k, rfl⟩
  | none =>
    exfalso
    rw [List.head?_eq_none_iff] at hh
    have h6 : 6 ∈ (List.range 7).filter (fun k => 10 ^ k % d = 0) := by
      rw [List.mem_filter]
      refine ⟨by decide, by simpa using Nat.mod_eq_zero_of_dvd hd⟩
    rw [hh] at h6
    simp at h6

theorem decDigits_isDigit : ∀ c ∈ decDigits, Char.isDigit c = true := by decide

theorem jsParseFloat_all_digits (l : List Char) (hne : l ≠ [])
    (h : ∀ c ∈ l, c ∈ decDigits) :
    jsParseFloatL l = some (parseNatDigits l : ℚ) := by
  have hdig : ∀ c ∈ l, Char.isDigit c = true :=
    fun c hc => decDigits_isDigit c (h c hc)
  unfold jsParseFloatL
  rw [List.takeWhile_eq_self_iff.mpr hdig, List.dropWhile_eq_nil_iff.mpr hdig]
  dsimp only
  rw [if_neg (by simp [hne])]

theorem jsParseFloat_point (A B : List Char) (hA : A ≠ [])
    (hAd : ∀ c ∈ A, c ∈ decDigits) (hBd : ∀ c ∈ B, c ∈ decDigits) :
    jsParseFloatL (A ++ '.' :: B) = some ((parseNatDigits A : ℚ) +
      (parseNatDigits B : ℚ) / ((10 : ℚ) ^ B.length)) := by
  have hdA : ∀ c ∈ A, Char.isDigit c = true :=
    fun c hc => decDigits_isDigit c (hAd c hc)
  have hdB : ∀ c ∈ B, Char.isDigit c = true :=
    fun c hc => decDigits_isDigit c (hBd c hc)
  unfold jsParseFloatL
  rw [List.takeWhile_append_of_pos hdA, List.dropWhile_append_of_pos hdA,
    List.takeWhile_cons, List.dropWhile_cons]
  rw [if_neg (by decide), if_neg (by decide)]
  rw [List.append_nil]
  show (if (A.isEmpty && (List.takeWhile Char.isDigit B).isEmpty) = true then none
      else some ((parseNatDigits A : ℚ) +
        (parseNatDigits (List.takeWhile Char.isDigit B) : ℚ) /
          (10 : ℚ) ^ (List.takeWhile Char.isDigit B).length)) = _
  rw [List.takeWhile_eq_self_iff.mpr hdB]
  rw [if_neg (by simp [hA])]

theorem ratToDecNN_eq (q : ℚ) (h0 : 0 ≤ q) : ratToDec q = ratToDec.ratToDecNN q := by
  unfold ratToDec
  rw [if_neg (by simpa using not_lt.mpr h0)]

theorem ratToDec_spec (q : ℚ) (h0 : 0 ≤ q) (hden : q.den ∣ 10 ^ 6) :
    ratToDec q ≠ [] ∧ (∀ c ∈ ratToDec q, c ∈ '.' :: decDigits) ∧
      jsParseFloatL (ratToDec q) = some q := by
  rw [ratToDecNN_eq q h0]
  obtain ⟨k, hk⟩ := decPow_some q.den hden
  have hdvd : q.den ∣ 10 ^ k := Nat.dvd_of_mod_eq_zero (decPow_dvd _ _ hk)
  have hnum : ((q.num.toNat : ℤ) : ℚ) = (q.num : ℚ) := by
    exact_mod_cast congrArg (Int.cast : ℤ → ℚ) (Int.toNat_of_nonneg (Rat.num_nonneg.mpr h0))
  unfold ratToDec.ratToDecNN
  rw [hk]
  cases k with
  | zero =>
    have hd1 : q.den = 1 := Nat.dvd_one.mp (by simpa using hdvd)
    dsimp only
    refine ⟨natToDec_ne_nil _, fun c hc => List.mem_cons_of_mem _ (natToDec_digits _ c hc), ?_⟩
    rw [jsParseFloat_all_digits _ (natToDec_ne_nil _) (natToDec_digits _),
      parseNat_natToDec]
    congr 1
    rw [show ((q.num.toNat : ℕ) : ℚ) = ((q.num.toNat : ℤ) : ℚ) by push_cast; ring, hnum]
    rw [← Rat.num_div_den q, hd1]
    simp
  | succ k' =>
    dsimp only
    set K := k' + 1 with hK
    set scaled := q.num.toNat * (10 ^ K / q.den) with hscaled
    have hb : scaled % 10 ^ K < 10 ^ K := Nat.mod_lt _ (by positivity)
    have hlenb : (natToDec (scaled % 10 ^ K)).length ≤ K := natToDec_length _ k' hb
    have hpadlen : (padZeros K (natToDec (scaled % 10 ^ K))).length = K :=
      padZeros_length _ _ hlenb
    have hpadd : ∀ c ∈ padZeros K (natToDec (scaled % 10 ^ K)), c ∈ decDigits :=
      padZeros_digits _ _ (natToDec_digits _)
    refine ⟨by simp [natToDec_ne_nil], ?_, ?_⟩
    · intro c hc
      rcases List.mem_append.mp hc with hc | hc
      · exact List.mem_cons_of_mem _ (natToDec_digits _ c hc)
      · rcases List.mem_cons.mp hc with rfl | hc
        · exact List.mem_cons_self ..
        · exact List.mem_cons_of_mem _ (hpadd c hc)
    · rw [jsParseFloat_point _ _ (natToDec_ne_nil _) (natToDec_digits _) hpadd]
      rw [parseNat_natToDec, parseNat_padZeros, parseNat_natToDec, hpadlen]
      congr 1
      have h10 : ((10 : ℚ) ^ K) ≠ 0 := by positivity
      have hden0 : ((q.den : ℚ)) ≠ 0 := by
        simp
      have hdm : scaled / 10 ^ K * 10 ^ K + scaled % 10 ^ K = scaled := by
        conv_rhs => rw [← Nat.div_add_mod scaled (10 ^ K)]
        ring
      have key : ((scaled / 10 ^ K : ℕ) : ℚ) + ((scaled % 10 ^ K : ℕ) : ℚ) / 10 ^ K =
          (scaled : ℚ) / 10 ^ K := by
        rw [eq_div_iff h10, add_mul, div_mul_cancel₀ _ h10]
        exact_mod_cast congrArg (Nat.cast : ℕ → ℚ) hdm
      rw [key]
      have hcastdiv : ((10 ^ K / q.den : ℕ) : ℚ) = (10 : ℚ) ^ K / (q.den : ℚ) := by
        rw [Nat.cast_div hdvd hden0]
        push_cast
        ring
      have hsc : (scaled : ℚ) = (q.num : ℚ) * ((10 : ℚ) ^ K / (q.den : ℚ)) := by
        rw [hscaled]
        push_cast
        rw [hcastdiv]
        rw [show ((q.num.toNat : ℕ) : ℚ) = ((q.num.toNat : ℤ) : ℚ) by push_cast; ring, hnum]
      rw [hsc]
      have hfin : (q.num : ℚ) * ((10 : ℚ) ^ K / (q.den : ℚ)) / (10 : ℚ) ^ K =
          (q.num : ℚ) / (q.den : ℚ) := by
        field_simp
        ring
      rw [hfin, Rat.num_div_den]

theorem jnItems_nil : jnItems [] = [] := rfl

theorem not_infix_small (kw l : List Char) (hne : kw ≠ [])
    (h : ∀ c ∈ l, c ∉ kw) : ¬ kw <:+: l := by
  intro hin
  obtain ⟨c, hc⟩ := List.exists_mem_of_ne_nil kw hne
  exact h c (hin.subset hc) hc

theorem not_infix_esc (kw : List Char) (x : String) (hne : kw ≠ [])
    (hkw : ¬ kw <:+: x.data) (hq : '"' ∉ x.data) (hqk : '"' ∉ kw) :
    ¬ kw <:+: (escapeYamlString x).data := by
  rcases escape_data x hq with h | h <;> rw [h]
  · exact hkw
  · show ¬ kw <:+: (['"'] ++ (x.data ++ ['"']))
    refine not_infix_append_left kw ['"'] (x.data ++ ['"'])
      (not_infix_small kw _ hne (by simpa using hqk)) ?_ '"' rfl hqk
    exact not_infix_append_right kw x.data ['"'] hkw
      (not_infix_small kw _ hne (by simpa using hqk)) '"' rfl hqk

theorem not_infix_flat (kw : List Char) (ts : List String) (hne : kw ≠ [])
    (hcm : ',' ∉ kw) (hsp : ' ' ∉ kw)
    (hts : ∀ x ∈ ts, ¬ kw <:+: (escapeYamlString x).data) :
    ¬ kw <:+: ts.flatMap (fun a => ',' :: ' ' :: (escapeYamlString a).data) := by
  induction ts with
  | nil =>
    intro h
    exact hne (by simpa using h)
  | cons a ts ih =>
    rw [List.flatMap_cons]
    have hseg : ¬ kw <:+: (',' :: ' ' :: (escapeYamlString a).data) := by
      show ¬ kw <:+: ([',', ' '] ++ (escapeYamlString a).data)
      refine not_infix_append_left kw [',', ' '] _
        (not_infix_small kw _ hne ?_) (hts a (List.mem_cons_self ..)) ' ' rfl hsp
      intro c hc
      rcases List.mem_cons.mp hc with rfl | hc
      · exact hcm
      · obtain rfl : c = ' ' := by simpa using hc
        exact hsp
    cases ts with
    | nil => simpa using hseg
    | cons b ts' =>
      refine not_infix_append_right kw _ _ hseg
        (ih (fun x hx => hts x (List.mem_cons_of_mem _ hx))) ',' ?_ hcm
      rw [List.flatMap_cons]
      rfl

theorem not_infix_jnItems (kw : List Char) (xs : List String) (hne : kw ≠ [])
    (hcm : ',' ∉ kw) (hsp : ' ' ∉ kw)
    (hxs : ∀ x ∈ xs, ¬ kw <:+: (escapeYamlString x).data) :
    ¬ kw <:+: jnItems xs := by
  cases xs with
  | nil =>
    intro h
    rw [jnItems_nil] at h
    exact hne (by simpa using h)
  | cons x t =>
    rw [jnItems_cons]
    cases t with
    | nil => simpa using hxs x (List.mem_cons_self ..)
    | cons b t' =>
      refine not_infix_append_right kw _ _ (hxs x (List.mem_cons_self ..))
        (not_infix_flat kw _ hne hcm hsp
          (fun y hy => hxs y (List.mem_cons_of_mem _ hy))) ',' ?_ hcm
      rw [List.flatMap_cons]
      rfl

theorem firstSome_skip (f : List Char → Option α) (kw A B : List Char)
    (hnone : ∀ l, ¬ kw <+: l → f l = none)
    (hkwA : ¬ kw <:+: A) (c : Char) (hlast : A.getLast? = some c) (hc : c ∉ kw) :
    firstSome f (A ++ B) = firstSome f B :=
  firstSome_append f A B (fun A' hne hs =>
    hnone _ (kw_not_prefix_suffix kw A B hkwA c hlast hc A' hne hs))

theorem not_infix_of_head_forbidden (kw A B : List Char) (h0 : Char)
    (hh : kw.head? = some h0) (hA : h0 ∉ A) (hB : ¬ kw <:+: B) :
    ¬ kw <:+: (A ++ B) := by
  induction A with
  | nil => simpa using hB
  | cons a A ih =>
    intro h
    rw [List.cons_append] at h
    rcases List.infix_cons_iff.mp h with hpre | hinf
    · cases kw with
      | nil => simp at hh
      | cons k0 kt =>
        have hk : k0 = h0 := by simpa using hh
        have he : k0 = a := (List.cons_prefix_cons.mp hpre).1
        apply hA
        rw [← hk, he]
        exact List.mem_cons_self ..
    · exact ih (fun hm => hA (List.mem_cons_of_mem _ hm)) hinf

theorem getLast?_app2 (A B : List Char) (c : Char) (hBne : B ≠ [])
    (hB : B.getLast? = some c) : (A ++ B).getLast? = some c := by
  rw [List.getLast?_append_of_ne_nil A hBne]
  exact hB

theorem jnItems_chars (xs : List String) (h : ∀ x ∈ xs, CleanItem x) :
    ∀ c ∈ jnItems xs, c ≠ ']' ∧ isLineTerm c = false := by
  have hitem : ∀ x ∈ xs, ∀ c ∈ (escapeYamlString x).data,
      c ≠ ']' ∧ isLineTerm c = false := by
    intro x hx c hc
    have hxc := h x hx
    have hq : '"' ∉ x.data := fun hm => (hxc.2.2.1 _ hm).2.1 rfl
    rcases escape_mem x hq c hc with rfl | hcm
    · exact ⟨by decide, by decide⟩
    · exact ⟨(hxc.2.2.1 _ hcm).2.2.2.2, (hxc.2.2.1 _ hcm).1⟩
  cases xs with
  | nil => rw [jnItems_nil]; simp
  | cons x t =>
    rw [jnItems_cons]
    intro c hc
    rcases List.mem_append.mp hc with hc | hc
    · exact hitem x (List.mem_cons_self ..) c hc
    · rw [List.mem_flatMap] at hc
      obtain ⟨a, ha, hc⟩ := hc
      rcases List.mem_cons.mp hc with rfl | hc
      · exact ⟨by decide, by decide⟩
      rcases List.mem_cons.mp hc with rfl | hc
      · exact ⟨by decide, by decide⟩
      · exact hitem a (List.mem_cons_of_mem _ ha) c hc

theorem esc_ne_nil (x : String) (hne : x ≠ "") (hq : '"' ∉ x.data) :
    (escapeYamlString x).data ≠ [] := by
  rcases escape_data x hq with h | h <;> rw [h]
  · exact data_ne_nil x hne
  · simp

theorem esc_head_not_ws (x : String) (htrim : jsTrimL x.data = x.data)
    (hq : '"' ∉ x.data) :
    ∀ c, (escapeYamlString x).data.head? = some c → isJsWS c = false := by
  intro c hc
  rcases escape_data x hq with h | h <;> rw [h] at hc
  · exact trimmed_head_not_ws x.data htrim c hc
  · obtain rfl : '"' = c := by simpa using hc
    decide

theorem esc_lineterm (x : String) (hq : '"' ∉ x.data)
    (hx : ∀ c ∈ x.data, isLineTerm c = false) :
    ∀ c ∈ (escapeYamlString x).data, isLineTerm c = false := by
  intro c hc
  rcases escape_mem x hq c hc with rfl | h
  · decide
  · exact hx c h

theorem stripEdgeQuotesL_id (l : List Char)
    (h : ∀ c ∈ l, c ≠ '"' ∧ c ≠ '\'') : stripEdgeQuotesL l = l := by
  unfold stripEdgeQuotesL
  cases l with
  | nil => rfl
  | cons c t =>
    dsimp only
    rw [if_neg (by simp [(h c (List.mem_cons_self ..)).1,
      (h c (List.mem_cons_self ..)).2])]
    cases hlast : (c :: t).getLast? with
    | none => rfl
    | some d =>
      have hd := h d (List.mem_of_getLast?_eq_some hlast)
      dsimp only
      rw [if_neg (by simp [hd.1, hd.2])]

theorem stripEdgeQuotesL_quoted (d : List Char) :
    stripEdgeQuotesL ('"' :: (d ++ ['"'])) = d := by
  unfold stripEdgeQuotesL
  dsimp only
  rw [if_pos (by decide)]
  rw [List.getLast?_concat]
  dsimp only
  rw [if_pos (by decide)]
  exact List.dropLast_concat

theorem stripEdge_esc (x : String) (hne : x ≠ "") (htrim : jsTrimL x.data = x.data)
    (hchars : ∀ c ∈ x.data, c ≠ '"' ∧ c ≠ '\'') :
    stripEdgeQuotesL (jsTrimL (escapeYamlString x).data) = x.data := by
  have hq : '"' ∉ x.data := fun h => (hchars _ h).1 rfl
  rcases escape_data x hq with h | h <;> rw [h]
  · rw [htrim]
    exact stripEdgeQuotesL_id _ hchars
  · rw [show '"' :: (x.data ++ ['"']) = ('"' :: x.data) ++ ['"'] from rfl]
    rw [jsTrimL_id]
    · rw [show ('"' :: x.data) ++ ['"'] = '"' :: (x.data ++ ['"']) from rfl]
      exact stripEdgeQuotesL_quoted x.data
    · intro c hc
      obtain rfl : '"' = c := by simpa using hc
      decide
    · intro c hc
      rw [List.getLast?_concat] at hc
      obtain rfl : '"' = c := by simpa using hc
      decide

theorem matchClassHere_at_end (good : Char → Bool) (kw : List Char) (d : Char)
    (D : List Char) (hd : isJsWS d = false)
    (hD : ∀ c ∈ d :: D, good c = true) :
    matchClassHere good kw (kw ++ ' ' :: d :: D) = some (d :: D) := by
  unfold matchClassHere
  rw [if_pos (by simp [List.isPrefixOf_iff_prefix, List.prefix_append]),
    List.drop_left]
  show (match (' ' :: d :: D).get? (wsRunLen (' ' :: d :: D)) with
    | some c =>
      if good c then
        some (((' ' :: d :: D).drop (wsRunLen (' ' :: d :: D))).takeWhile good)
      else none
    | none => none) = some (d :: D)
  rw [wsRunLen_space_cons d _ hd]
  show (if good d then some ((d :: D).takeWhile good) else none) = some (d :: D)
  rw [if_pos (hD d (List.mem_cons_self ..)),
    List.takeWhile_eq_self_iff.mpr hD]

theorem kw_notin_jn (kw : List Char) (xs : List String) (hkwf : kw ∈ fieldKeywords)
    (hne : kw ≠ []) (hcm : ',' ∉ kw) (hsp : ' ' ∉ kw) (hqk : '"' ∉ kw)
    (hxs : ∀ x ∈ xs, CleanItem x) : ¬ kw <:+: jnItems xs :=
  not_infix_jnItems kw xs hne hcm hsp (fun x hx =>
    not_infix_esc kw x hne ((hxs x hx).2.2.2 kw hkwf)
      (fun hm2 => ((hxs x hx).2.2.1 _ hm2).2.1 rfl) hqk)

theorem kw_notin_esc_summary (kw : List Char) (x : String)
    (hkwf : kw ∈ fieldKeywords) (hne : kw ≠ []) (hqk : '"' ∉ kw)
    (hx : CleanSummary x) : ¬ kw <:+: (escapeYamlString x).data :=
  not_infix_esc kw x hne (hx.2.2.2 kw hkwf)
    (fun hm2 => (hx.2.2.1 _ hm2).2.1 rfl) hqk

theorem kw_notin_dec (kw D : List Char) (hne : kw ≠ [])
    (hD : ∀ c ∈ D, c ∈ '.' :: decDigits) (hdot : '.' ∉ kw)
    (hdig : ∀ c ∈ decDigits, c ∉ kw) : ¬ kw <:+: D :=
  not_infix_small kw D hne (fun c hc => by
    rcases List.mem_cons.mp (hD c hc) with rfl | h
    · exact hdot
    · exact hdig c h)

theorem fmA3_last (m : MemoryMetadata) : (fmA3 m).getLast? = some '\n' := by
  unfold fmA3
  exact getLast?_app2 _ _ _ (by simp) (getLast?_app2 _ _ _ (by simp) (by decide))

theorem fmA4_last (m : MemoryMetadata) : (fmA4 m).getLast? = some '\n' := by
  unfold fmA4
  exact getLast?_app2 _ _ _ (by simp) (getLast?_app2 _ _ _ (by simp)
    (getLast?_app2 _ _ _ (by simp) (by decide)))

theorem fmA5_last (m : MemoryMetadata) : (fmA5 m).getLast? = some '\n' := by
  unfold fmA5
  exact getLast?_app2 _ _ _ (by simp) (getLast?_app2 _ _ _ (by simp)
    (getLast?_app2 _ _ _ (by simp) (by decide)))

theorem fmA6_last (m : MemoryMetadata) : (fmA6 m).getLast? = some '\n' := by
  unfold fmA6
  exact getLast?_app2 _ _ _ (by simp) (getLast?_app2 _ _ _ (by simp)
    (getLast?_app2 _ _ _ (by simp) (by decide)))

theorem fmA7_last (m : MemoryMetadata) : (fmA7 m).getLast? = some ' ' := by
  unfold fmA7
  exact getLast?_app2 _ _ _ (by simp) (getLast?_app2 _ _ _ (by simp)
    (getLast?_app2 _ _ _ (by simp) (by decide)))

theorem fmA8_last (m : MemoryMetadata) : (fmA8 m).getLast? = some ' ' := by
  unfold fmA8
  exact getLast?_app2 _ _ _ (by simp) (getLast?_app2 _ _ _ (by simp)
    (getLast?_app2 _ _ _ (by simp) (by decide)))

theorem fmA9_last (m : MemoryMetadata) : (fmA9 m).getLast? = some ' ' := by
  unfold fmA9
  exact getLast?_app2 _ _ _ (by simp) (getLast?_app2 _ _ _ (by simp)
    (getLast?_app2 _ _ _ (by simp) (by decide)))

theorem kw_notin_A3 (kw : List Char) (m : MemoryMetadata) (hm : CleanMetadata m)
    (hkwf : kw ∈ fieldKeywords) (hne : kw ≠ []) (hcm : ',' ∉ kw) (hsp : ' ' ∉ kw)
    (hqk : '"' ∉ kw) (hrb : ']' ∉ kw) (hlb : '[' ∉ kw)
    (hlit : ¬ kw <:+: "tags: [".data)
    (hbr : ¬ kw <:+: ([']', '\n'] : List Char)) : ¬ kw <:+: fmA3 m := by
  unfold fmA3
  refine not_infix_append_left _ _ _ hlit ?_ '[' (by decide) hlb
  exact not_infix_append_right _ _ _
    (kw_notin_jn kw _ hkwf hne hcm hsp hqk hm.1) hbr ']' rfl hrb

theorem kw_notin_A4 (kw : List Char) (m : MemoryMetadata) (hm : CleanMetadata m)
    (hkwf : kw ∈ fieldKeywords) (hne : kw ≠ []) (hsp : ' ' ∉ kw)
    (hqk : '"' ∉ kw) (hnl : '\n' ∉ kw) (hA3 : ¬ kw <:+: fmA3 m)
    (hlit : ¬ kw <:+: "summary: ".data) : ¬ kw <:+: fmA4 m := by
  unfold fmA4
  refine not_infix_append_left _ _ _ hA3 ?_ '\n' (fmA3_last m) hnl
  refine not_infix_append_left _ _ _ hlit ?_ ' ' (by decide) hsp
  refine not_infix_append_right _ _ _
    (kw_notin_esc_summary kw _ hkwf hne hqk hm.2.1) ?_ '\n' rfl hnl
  exact not_infix_small _ _ hne (fun c hc => by
    obtain rfl : c = '\n' := by simpa using hc
    exact hnl)

theorem kw_notin_A5 (kw : List Char) (m : MemoryMetadata) (hm : CleanMetadata m)
    (hkwf : kw ∈ fieldKeywords) (hne : kw ≠ []) (hcm : ',' ∉ kw) (hsp : ' ' ∉ kw)
    (hqk : '"' ∉ kw) (hrb : ']' ∉ kw) (hlb : '[' ∉ kw) (hnl : '\n' ∉ kw)
    (hA4 : ¬ kw <:+: fmA4 m) (hlit : ¬ kw <:+: "relevantTo: [".data)
    (hbr : ¬ kw <:+: ([']', '\n'] : List Char)) : ¬ kw <:+: fmA5 m := by
  unfold fmA5
  refine not_infix_append_left _ _ _ hA4 ?_ '\n' (fmA4_last m) hnl
  refine not_infix_append_left _ _ _ hlit ?_ '[' (by decide) hlb
  exact not_infix_append_right _ _ _
    (kw_notin_jn kw _ hkwf hne hcm hsp hqk hm.2.2.1) hbr ']' rfl hrb

theorem kw_notin_A6 (kw : List Char) (m : MemoryMetadata) (hm : CleanMetadata m)
    (hne : kw ≠ []) (hsp : ' ' ∉ kw) (hnl : '\n' ∉ kw) (hdot : '.' ∉ kw)
    (hdig : ∀ c ∈ decDigits, c ∉ kw) (hA5 : ¬ kw <:+: fmA5 m)
    (hlit : ¬ kw <:+: "importance: ".data) : ¬ kw <:+: fmA6 m := by
  unfold fmA6
  refine not_infix_append_left _ _ _ hA5 ?_ '\n' (fmA5_last m) hnl
  refine not_infix_append_left _ _ _ hlit ?_ ' ' (by decide) hsp
  refine not_infix_append_right _ _ _ ?_ ?_ '\n' rfl hnl
  · exact kw_notin_dec kw _ hne
      (ratToDec_spec m.importance hm.2.2.2.1.1 hm.2.2.2.1.2.2).2.1 hdot hdig
  · exact not_infix_small _ _ hne (fun c hc => by
      obtain rfl : c = '\n' := by simpa using hc
      exact hnl)

theorem kw_notin_A7 (kw : List Char) (m : MemoryMetadata) (hm : CleanMetadata m)
    (hkwf : kw ∈ fieldKeywords) (hne : kw ≠ []) (hcm : ',' ∉ kw) (hsp : ' ' ∉ kw)
    (hqk : '"' ∉ kw) (hrb : ']' ∉ kw) (hlb : '[' ∉ kw) (hnl : '\n' ∉ kw)
    (hA6 : ¬ kw <:+: fmA6 m) (hlit : ¬ kw <:+: "relatedFiles: [".data)
    (htail : ¬ kw <:+: (']' :: '\n' :: "usageStats:\n  ".data)) :
    ¬ kw <:+: fmA7 m := by
  show ¬ kw <:+: (fmA6 m ++ ("relatedFiles: [".data ++
    (jnItems m.relatedFiles ++ (']' :: '\n' :: "usageStats:\n  ".data))))
  refine not_infix_append_left _ _ _ hA6 ?_ '\n' (fmA6_last m) hnl
  refine not_infix_append_left _ _ _ hlit ?_ '[' (by decide) hlb
  exact not_infix_append_right _ _ _
    (kw_notin_jn kw _ hkwf hne hcm hsp hqk hm.2.2.2.2.1) htail ']' rfl hrb

theorem kw_notin_A8 (kw : List Char) (m : MemoryMetadata)
    (hne : kw ≠ []) (hsp : ' ' ∉ kw) (hnl : '\n' ∉ kw)
    (hdig : ∀ c ∈ decDigits, c ∉ kw) (hA7 : ¬ kw <:+: fmA7 m)
    (hlit : ¬ kw <:+: "loaded: ".data) : ¬ kw <:+: fmA8 m := by
  unfold fmA8
  refine not_infix_append_left _ _ _ hA7 ?_ ' ' (fmA7_last m) hsp
  refine not_infix_append_left _ _ _ hlit ?_ ' ' (by decide) hsp
  refine not_infix_append_right _ _ _ ?_ ?_ '\n' rfl hnl
  · exact not_infix_small kw _ hne (fun c hc =>
      hdig c (natToDec_digits _ c hc))
  · exact not_infix_small _ _ hne (fun c hc => by
      rcases List.mem_cons.mp hc with rfl | hc
      · exact hnl
      rcases List.mem_cons.mp hc with rfl | hc
      · exact hsp
      · obtain rfl : c = ' ' := by simpa using hc
        exact hsp)

theorem kw_notin_A9 (kw : List Char) (m : MemoryMetadata)
    (hne : kw ≠ []) (hsp : ' ' ∉ kw) (hnl : '\n' ∉ kw)
    (hdig : ∀ c ∈ decDigits, c ∉ kw) (hA8 : ¬ kw <:+: fmA8 m)
    (hlit : ¬ kw <:+: "referenced: ".data) : ¬ kw <:+: fmA9 m := by
  unfold fmA9
  refine not_infix_append_left _ _ _ hA8 ?_ ' ' (fmA8_last m) hsp
  refine not_infix_append_left _ _ _ hlit ?_ ' ' (by decide) hsp
  refine not_infix_append_right _ _ _ ?_ ?_ '\n' rfl hnl
  · exact not_infix_small kw _ hne (fun c hc =>
      hdig c (natToDec_digits _ c hc))
  · exact not_infix_small _ _ hne (fun c hc => by
      rcases List.mem_cons.mp hc with rfl | hc
      · exact hnl
      rcases List.mem_cons.mp hc with rfl | hc
      · exact hsp
      · obtain rfl : c = ' ' := by simpa using hc
        exact hsp)

theorem dotdig_not_ws : ∀ c ∈ '.' :: decDigits, isJsWS c = false := by decide

theorem dotdig_good : ∀ c ∈ '.' :: decDigits, isDigitOrDot c = true := by decide

theorem applyTags_eq (m : MemoryMetadata) (hm : CleanMetadata m)
    (md : MemoryMetadata) : applyTags (fmData m) md = { md with tags := m.tags } := by
  unfold applyTags
  have h1 : firstSome (matchBracketHere kwTags) (fmData m) =
      some (jnItems m.tags) := by
    rw [fmData_S2]
    refine firstSome_of_here _ _ _ ?_
    unfold fmS2
    exact matchBracketHere_at kwTags (jnItems m.tags) ('\n' :: fmS3 m)
      (jnItems_chars m.tags hm.1)
  rw [h1]
  dsimp only
  rw [parseBracketList_jnItems _ hm.1]

theorem applySummary_eq (m : MemoryMetadata) (hm : CleanMetadata m)
    (md : MemoryMetadata) :
    applySummary (fmData m) md = { md with summary := m.summary } := by
  unfold applySummary
  have hsum := hm.2.1
  have hq : '"' ∉ m.summary.data := fun hm2 => (hsum.2.2.1 _ hm2).2.1 rfl
  obtain ⟨e, E, hEE⟩ : ∃ e E, (escapeYamlString m.summary).data = e :: E := by
    cases h : (escapeYamlString m.summary).data with
    | nil => exact absurd h (esc_ne_nil _ hsum.1 hq)
    | cons e E => exact ⟨e, E, rfl⟩
  have h1 : firstSome (matchLineHere kwSummary) (fmData m) =
      some (escapeYamlString m.summary).data := by
    rw [fmData_A3_S3]
    rw [firstSome_skip (matchLineHere kwSummary) kwSummary (fmA3 m) (fmS3 m)
      (fun l hl => matchLineHere_none _ _ hl)
      (kw_notin_A3 kwSummary m hm (by decide) (by decide) (by decide) (by decide)
        (by decide) (by decide) (by decide) (by decide) (by decide))
      '\n' (fmA3_last m) (by decide)]
    refine firstSome_of_here _ _ _ ?_
    unfold fmS3
    rw [hEE]
    rw [show (e :: E) ++ '\n' :: fmS4 m = e :: (E ++ '\n' :: fmS4 m) from rfl]
    rw [matchLineHere_at kwSummary e E (fmS4 m)
      (esc_head_not_ws m.summary hsum.2.1 hq e (by rw [hEE]; rfl))
      (fun c hc => esc_lineterm m.summary hq
        (fun d hd => (hsum.2.2.1 d hd).1) c (by rw [hEE]; exact hc))]
  rw [h1]
  dsimp only
  rw [stripEdge_esc m.summary hsum.1 hsum.2.1
    (fun c hc => ⟨(hsum.2.2.1 c hc).2.1, (hsum.2.2.1 c hc).2.2⟩)]

theorem applyRelevantTo_eq (m : MemoryMetadata) (hm : CleanMetadata m)
    (md : MemoryMetadata) :
    applyRelevantTo (fmData m) md = { md with relevantTo := m.relevantTo } := by
  unfold applyRelevantTo
  have h1 : firstSome (matchBracketHere kwRelevantTo) (fmData m) =
      some (jnItems m.relevantTo) := by
    rw [fmData_A4_S4]
    rw [firstSome_skip (matchBracketHere kwRelevantTo) kwRelevantTo
      (fmA4 m) (fmS4 m) (fun l hl => matchBracketHere_none _ _ hl)
      (kw_notin_A4 kwRelevantTo m hm (by decide) (by decide) (by decide)
        (by decide) (by decide)
        (kw_notin_A3 kwRelevantTo m hm (by decide) (by decide) (by decide)
          (by decide) (by decide) (by decide) (by decide) (by decide) (by decide))
        (by decide))
      '\n' (fmA4_last m) (by decide)]
    refine firstSome_of_here _ _ _ ?_
    unfold fmS4
    exact matchBracketHere_at kwRelevantTo (jnItems m.relevantTo) ('\n' :: fmS5 m)
      (jnItems_chars m.relevantTo hm.2.2.1)
  rw [h1]
  dsimp only
  rw [parseBracketList_jnItems _ hm.2.2.1]

theorem applyImportance_eq (m : MemoryMetadata) (hm : CleanMetadata m)
    (md : MemoryMetadata) :
    applyImportance (fmData m) md = { md with importance := m.importance } := by
  unfold applyImportance
  obtain ⟨h0, h1i, hden⟩ := hm.2.2.2.1
  have hspec := ratToDec_spec m.importance h0 hden
  obtain ⟨d, D, hDD⟩ : ∃ d D, ratToDec m.importance = d :: D := by
    cases h : ratToDec m.importance with
    | nil => exact absurd h hspec.1
    | cons d D => exact ⟨d, D, rfl⟩
  have hmatch : firstSome (matchClassHere isDigitOrDot kwImportance) (fmData m) =
      some (ratToDec m.importance) := by
    rw [fmData_A5_S5]
    rw [firstSome_skip (matchClassHere isDigitOrDot kwImportance) kwImportance
      (fmA5 m) (fmS5 m) (fun l hl => matchClassHere_none _ _ _ hl)
      (kw_notin_A5 kwImportance m hm (by decide) (by decide) (by decide)
        (by decide) (by decide) (by decide) (by decide) (by decide)
        (kw_notin_A4 kwImportance m hm (by decide) (by decide) (by decide)
          (by decide) (by decide)
          (kw_notin_A3 kwImportance m hm (by decide) (by decide) (by decide)
            (by decide) (by decide) (by decide) (by decide) (by decide)
            (by decide))
          (by decide))
        (by decide) (by decide))
      '\n' (fmA5_last m) (by decide)]
    refine firstSome_of_here _ _ _ ?_
    unfold fmS5
    rw [hDD]
    rw [show (d :: D) ++ '\n' :: fmS6 m = d :: (D ++ '\n' :: fmS6 m) from rfl]
    rw [matchClassHere_at isDigitOrDot kwImportance d D (fmS6 m)
      (dotdig_not_ws d (hspec.2.1 d (by rw [hDD]; exact List.mem_cons_self ..)))
      (by decide)
      (fun c hc => dotdig_good c (hspec.2.1 c (by rw [hDD]; exact hc)))]
  rw [hmatch]
  dsimp only
  rw [hspec.2.2]
  dsimp only
  rw [min_eq_right h1i, max_eq_right h0]

theorem applyRelatedFiles_eq (m : MemoryMetadata) (hm : CleanMetadata m)
    (md : MemoryMetadata) :
    applyRelatedFiles (fmData m) md = { md with relatedFiles := m.relatedFiles } := by
  unfold applyRelatedFiles
  have h1 : firstSome (matchBracketHere kwRelatedFiles) (fmData m) =
      some (jnItems m.relatedFiles) := by
    rw [fmData_A6_S6]
    rw [firstSome_skip (matchBracketHere kwRelatedFiles) kwRelatedFiles
      (fmA6 m) (fmS6 m) (fun l hl => matchBracketHere_none _ _ hl)
      (kw_notin_A6 kwRelatedFiles m hm (by decide) (by decide) (by decide)
        (by decide) (by decide)
        (kw_notin_A5 kwRelatedFiles m hm (by decide) (by decide) (by decide)
          (by decide) (by decide) (by decide) (by decide) (by decide)
          (kw_notin_A4 kwRelatedFiles m hm (by decide) (by decide) (by decide)
            (by decide) (by decide)
            (kw_notin_A3 kwRelatedFiles m hm (by decide) (by decide) (by decide)
              (by decide) (by decide) (by decide) (by decide) (by decide)
              (by decide))
            (by decide))
          (by decide) (by decide))
        (by decide))
      '\n' (fmA6_last m) (by decide)]
    refine firstSome_of_here _ _ _ ?_
    unfold fmS6
    exact matchBracketHere_at kwRelatedFiles (jnItems m.relatedFiles)
      ('\n' :: ("usageStats:".data ++ '\n' :: ' ' :: ' ' :: fmS7 m))
      (jnItems_chars m.relatedFiles hm.2.2.2.2.1)
  rw [h1]
  dsimp only
  rw [parseBracketList_jnItems _ hm.2.2.2.2.1]

theorem dig_not_ws : ∀ c ∈ decDigits, isJsWS c = false := by decide

theorem applyLoaded_eq (m : MemoryMetadata) (hm : CleanMetadata m)
    (md : MemoryMetadata) :
    applyLoaded (fmData m) md =
      { md with usageStats.loaded := m.usageStats.loaded } := by
  unfold applyLoaded
  obtain ⟨d, D, hDD⟩ : ∃ d D, natToDec m.usageStats.loaded = d :: D := by
    cases h : natToDec m.usageStats.loaded with
    | nil => exact absurd h (natToDec_ne_nil _)
    | cons d D => exact ⟨d, D, rfl⟩
  have h1 : firstSome (matchClassHere Char.isDigit kwLoaded) (fmData m) =
      some (natToDec m.usageStats.loaded) := by
    rw [fmData_A7_S7]
    rw [firstSome_skip (matchClassHere Char.isDigit kwLoaded) kwLoaded
      (fmA7 m) (fmS7 m) (fun l hl => matchClassHere_none _ _ _ hl)
      (kw_notin_A7 kwLoaded m hm (by decide) (by decide) (by decide)
        (by decide) (by decide) (by decide) (by decide) (by decide)
        (kw_notin_A6 kwLoaded m hm (by decide) (by decide) (by decide)
          (by decide) (by decide)
          (kw_notin_A5 kwLoaded m hm (by decide) (by decide) (by decide)
            (by decide) (by decide) (by decide) (by decide) (by decide)
            (kw_notin_A4 kwLoaded m hm (by decide) (by decide) (by decide)
              (by decide) (by decide)
              (kw_notin_A3 kwLoaded m hm (by decide) (by decide) (by decide)
                (by decide) (by decide) (by decide) (by decide) (by decide)
                (by decide))
              (by decide))
            (by decide) (by decide))
          (by decide))
        (by decide) (by decide))
      ' ' (fmA7_last m) (by decide)]
    refine firstSome_of_here _ _ _ ?_
    unfold fmS7
    rw [hDD]
    rw [show (d :: D) ++ '\n' :: ' ' :: ' ' :: fmS8 m =
      d :: (D ++ '\n' :: (' ' :: ' ' :: fmS8 m)) from rfl]
    rw [matchClassHere_at Char.isDigit kwLoaded d D (' ' :: ' ' :: fmS8 m)
      (dig_not_ws d (natToDec_digits _ d (by rw [hDD]; exact List.mem_cons_self ..)))
      (by decide)
      (fun c hc => decDigits_isDigit c
        (natToDec_digits _ c (by rw [hDD]; exact hc)))]
  rw [h1]
  dsimp only
  rw [parseNat_natToDec]

theorem applyReferenced_eq (m : MemoryMetadata) (hm : CleanMetadata m)
    (md : MemoryMetadata) :
    applyReferenced (fmData m) md =
      { md with usageStats.referenced := m.usageStats.referenced } := by
  unfold applyReferenced
  obtain ⟨d, D, hDD⟩ : ∃ d D, natToDec m.usageStats.referenced = d :: D := by
    cases h : natToDec m.usageStats.referenced with
    | nil => exact absurd h (natToDec_ne_nil _)
    | cons d D => exact ⟨d, D, rfl⟩
  have h1 : firstSome (matchClassHere Char.isDigit kwReferenced) (fmData m) =
      some (natToDec m.usageStats.referenced) := by
    rw [fmData_A8_S8]
    rw [firstSome_skip (matchClassHere Char.isDigit kwReferenced) kwReferenced
      (fmA8 m) (fmS8 m) (fun l hl => matchClassHere_none _ _ _ hl)
      (kw_notin_A8 kwReferenced m (by decide) (by decide) (by decide) (by decide)
        (kw_notin_A7 kwReferenced m hm (by decide) (by decide) (by decide)
          (by decide) (by decide) (by decide) (by decide) (by decide)
          (kw_notin_A6 kwReferenced m hm (by decide) (by decide) (by decide)
            (by decide) (by decide)
            (kw_notin_A5 kwReferenced m hm (by decide) (by decide) (by decide)
              (by decide) (by decide) (by decide) (by decide) (by decide)
              (kw_notin_A4 kwReferenced m hm (by decide) (by decide) (by decide)
                (by decide) (by decide)
                (kw_notin_A3 kwReferenced m hm (by decide) (by decide) (by decide)
                  (by decide) (by decide) (by decide) (by decide) (by decide)
                  (by decide))
                (by decide))
              (by decide) (by decide))
            (by decide))
          (by decide) (by decide))
        (by decide))
      ' ' (fmA8_last m) (by decide)]
    refine firstSome_of_here _ _ _ ?_
    unfold fmS8
    rw [hDD]
    rw [show (d :: D) ++ '\n' :: ' ' :: ' ' :: fmS9 m =
      d :: (D ++ '\n' :: (' ' :: ' ' :: fmS9 m)) from rfl]
    rw [matchClassHere_at Char.isDigit kwReferenced d D (' ' :: ' ' :: fmS9 m)
      (dig_not_ws d (natToDec_digits _ d (by rw [hDD]; exact List.mem_cons_self ..)))
      (by decide)
      (fun c hc => decDigits_isDigit c
        (natToDec_digits _ c (by rw [hDD]; exact hc)))]
  rw [h1]
  dsimp only
  rw [parseNat_natToDec]

theorem applySuccess_eq (m : MemoryMetadata) (hm : CleanMetadata m)
    (md : MemoryMetadata) :
    applySuccess (fmData m) md =
      { md with usageStats.successfulFeatures :=
        m.usageStats.successfulFeatures } := by
  unfold applySuccess
  obtain ⟨d, D, hDD⟩ : ∃ d D, natToDec m.usageStats.successfulFeatures = d :: D := by
    cases h : natToDec m.usageStats.successfulFeatures with
    | nil => exact absurd h (natToDec_ne_nil _)
    | cons d D => exact ⟨d, D, rfl⟩
  have h1 : firstSome (matchClassHere Char.isDigit kwSuccess) (fmData m) =
      some (natToDec m.usageStats.successfulFeatures) := by
    rw [fmData_A9_S9]
    rw [firstSome_skip (matchClassHere Char.isDigit kwSuccess) kwSuccess
      (fmA9 m) (fmS9 m) (fun l hl => matchClassHere_none _ _ _ hl)
      (kw_notin_A9 kwSuccess m (by decide) (by decide) (by decide) (by decide)
        (kw_notin_A8 kwSuccess m (by decide) (by decide) (by decide) (by decide)
          (kw_notin_A7 kwSuccess m hm (by decide) (by decide) (by decide)
            (by decide) (by decide) (by decide) (by decide) (by decide)
            (kw_notin_A6 kwSuccess m hm (by decide) (by decide) (by decide)
              (by decide) (by decide)
              (kw_notin_A5 kwSuccess m hm (by decide) (by decide) (by decide)
                (by decide) (by decide) (by decide) (by decide) (by decide)
                (kw_notin_A4 kwSuccess m hm (by decide) (by decide) (by decide)
                  (by decide) (by decide)
                  (kw_notin_A3 kwSuccess m hm (by decide) (by decide) (by decide)
                    (by decide) (by decide) (by decide) (by decide) (by decide)
                    (by decide))
                  (by decide))
                (by decide) (by decide))
              (by decide))
            (by decide) (by decide))
          (by decide))
        (by decide))
      ' ' (fmA9_last m) (by decide)]
    refine firstSome_of_here _ _ _ ?_
    unfold fmS9
    rw [hDD]
    rw [matchClassHere_at_end Char.isDigit kwSuccess d D
      (dig_not_ws d (natToDec_digits _ d (by rw [hDD]; exact List.mem_cons_self ..)))
      (fun c hc => decDigits_isDigit c
        (natToDec_digits _ c (by rw [hDD]; exact hc)))]
  rw [h1]
  dsimp only
  rw [parseNat_natToDec]

theorem parseFields_fmData (m : MemoryMetadata) (hm : CleanMetadata m) :
    parseFields (fmData m) = m := by
  unfold parseFields
  rw [applyTags_eq m hm, applySummary_eq m hm, applyRelevantTo_eq m hm,
    applyImportance_eq m hm, applyRelatedFiles_eq m hm, applyLoaded_eq m hm,
    applyReferenced_eq m hm, applySuccess_eq m hm]

theorem closeHere_none_of (a : Char) (t : List Char) (ha : a ≠ '\r')
    (hnd : ¬(a = '\n' ∧ t.head? = some '-')) : closeHere (a :: t) = none := by
  unfold closeHere
  split
  · next heq =>
    injection heq with h1 _
    exact absurd h1 ha
  · next heq =>
    injection heq with h1 h2
    cases t with
    | nil => simp at h2
    | cons b t' =>
      injection h2 with h2a _
      exact absurd ⟨h1, by simp [h2a]⟩ hnd
  · rfl

theorem findClose_prefix (F t0 : List Char) (n : Nat)
    (hcl : closeHere ('\n' :: '-' :: '-' :: '-' :: t0) = some n)
    (hr : '\r' ∉ F) (hnd : ¬ (['\n', '-'] : List Char) <:+: F) :
    findClose (F ++ '\n' :: '-' :: '-' :: '-' :: t0) = some (F.length, n) := by
  induction F with
  | nil =>
    show findClose ('\n' :: '-' :: '-' :: '-' :: t0) = some (0, n)
    unfold findClose
    rw [hcl]
  | cons a F ih =>
    have ha : a ≠ '\r' := fun h => hr (by rw [← h]; exact List.mem_cons_self ..)
    have hclnone :
        closeHere (a :: (F ++ '\n' :: '-' :: '-' :: '-' :: t0)) = none := by
      apply closeHere_none_of a _ ha
      rintro ⟨rfl, hhd⟩
      cases F with
      | nil => simp at hhd
      | cons b F' =>
        rw [List.cons_append] at hhd
        have hb : b = '-' := by simpa using hhd
        apply hnd
        refine List.IsPrefix.isInfix ⟨F', ?_⟩
        rw [hb]
        rfl
    rw [List.cons_append]
    unfold findClose
    rw [hclnone,
      ih (fun h => hr (List.mem_cons_of_mem _ h))
        (fun h => hnd (List.infix_cons h))]
    rfl

theorem lastNlInRun_body (bd : List Char) (hb : '\n' ∉ bd.take (wsRunLen bd)) :
    lastNlInRun ('\n' :: bd) = some 0 := by
  unfold lastNlInRun
  have hw : wsRunLen ('\n' :: bd) = wsRunLen bd + 1 := by
    show (if isJsWS '\n' then wsRunLen bd + 1 else 0) = wsRunLen bd + 1
    rw [if_pos (by decide)]
  rw [hw, List.range_succ_eq_map]
  rw [List.filter_cons_of_pos (by simp)]
  rw [List.filter_eq_nil_iff.mpr ?hh]
  · simp
  case hh =>
    intro i hi
    obtain ⟨j, hj, rfl⟩ := List.mem_map.mp hi
    have hjw : j < wsRunLen bd := List.mem_range.mp hj
    intro hp
    have hg : bd.get? j = some '\n' := by simpa using hp
    have hmem : '\n' ∈ bd.take (wsRunLen bd) := by
      have hgt : (bd.take (wsRunLen bd)).get? j = some '\n' := by
        rw [List.get?_take hjw]
        exact hg
      exact List.get?_mem hgt
    exact hb hmem

theorem closeHere_CL (bd : List Char) (hb : '\n' ∉ bd.take (wsRunLen bd)) :
    closeHere ('\n' :: '-' :: '-' :: '-' :: '\n' :: bd) = some 5 := by
  show (lastNlInRun ('\n' :: bd)).map (fun i => 4 + i + 1) = some 5
  rw [lastNlInRun_body bd hb]
  rfl

theorem jn_no_nl (xs : List String) (h : ∀ x ∈ xs, CleanItem x) :
    '\n' ∉ jnItems xs := fun hm =>
  absurd (jnItems_chars xs h '\n' hm).2 (by decide)

theorem jn_no_cr (xs : List String) (h : ∀ x ∈ xs, CleanItem x) :
    '\r' ∉ jnItems xs := fun hm =>
  absurd (jnItems_chars xs h '\r' hm).2 (by decide)

theorem esc_no_nl (x : String) (hq : '"' ∉ x.data)
    (hx : ∀ c ∈ x.data, isLineTerm c = false) :
    '\n' ∉ (escapeYamlString x).data := fun hm =>
  absurd (esc_lineterm x hq hx '\n' hm) (by decide)

theorem esc_no_cr (x : String) (hq : '"' ∉ x.data)
    (hx : ∀ c ∈ x.data, isLineTerm c = false) :
    '\r' ∉ (escapeYamlString x).data := fun hm =>
  absurd (esc_lineterm x hq hx '\r' hm) (by decide)

theorem dec_no_nl (q : ℚ) (h0 : 0 ≤ q) (hden : q.den ∣ 10 ^ 6) :
    '\n' ∉ ratToDec q := fun hm =>
  absurd ((ratToDec_spec q h0 hden).2.1 '\n' hm) (by decide)

theorem dec_no_cr (q : ℚ) (h0 : 0 ≤ q) (hden : q.den ∣ 10 ^ 6) :
    '\r' ∉ ratToDec q := fun hm =>
  absurd ((ratToDec_spec q h0 hden).2.1 '\r' hm) (by decide)

theorem nat_no_nl (n : Nat) : '\n' ∉ natToDec n := fun hm =>
  absurd (natToDec_digits n '\n' hm) (by decide)

theorem nat_no_cr (n : Nat) : '\r' ∉ natToDec n := fun hm =>
  absurd (natToDec_digits n '\r' hm) (by decide)

theorem no_cr_S9 (m : MemoryMetadata) : '\r' ∉ fmS9 m := by
  unfold fmS9
  intro h
  rcases List.mem_append.mp h with h | h
  · exact absurd h (by decide)
  · rcases List.mem_cons.mp h with h | h
    · simp at h
    · exact nat_no_cr _ h

theorem no_cr_S8 (m : MemoryMetadata) : '\r' ∉ fmS8 m := by
  unfold fmS8
  intro h
  rcases List.mem_append.mp h with h | h
  · exact absurd h (by decide)
  rcases List.mem_cons.mp h with h | h
  · simp at h
  rcases List.mem_append.mp h with h | h
  · exact nat_no_cr _ h
  rcases List.mem_cons.mp h with h | h
  · simp at h
  rcases List.mem_cons.mp h with h | h
  · simp at h
  rcases List.mem_cons.mp h with h | h
  · simp at h
  · exact no_cr_S9 m h

theorem no_cr_S7 (m : MemoryMetadata) : '\r' ∉ fmS7 m := by
  unfold fmS7
  intro h
  rcases List.mem_append.mp h with h | h
  · exact absurd h (by decide)
  rcases List.mem_cons.mp h with h | h
  · simp at h
  rcases List.mem_append.mp h with h | h
  · exact nat_no_cr _ h
  rcases List.mem_cons.mp h with h | h
  · simp at h
  rcases List.mem_cons.mp h with h | h
  · simp at h
  rcases List.mem_cons.mp h with h | h
  · simp at h
  · exact no_cr_S8 m h

theorem no_cr_S6 (m : MemoryMetadata) (hm : CleanMetadata m) : '\r' ∉ fmS6 m := by
  unfold fmS6
  intro h
  rcases List.mem_append.mp h with h | h
  · exact absurd h (by decide)
  rcases List.mem_cons.mp h with h | h
  · simp at h
  rcases List.mem_cons.mp h with h | h
  · simp at h
  rcases List.mem_append.mp h with h | h
  · exact jn_no_cr _ hm.2.2.2.2.1 h
  rcases List.mem_cons.mp h with h | h
  · simp at h
  rcases List.mem_cons.mp h with h | h
  · simp at h
  rcases List.mem_append.mp h with h | h
  · exact absurd h (by decide)
  rcases List.mem_cons.mp h with h | h
  · simp at h
  rcases List.mem_cons.mp h with h | h
  · simp at h
  rcases List.mem_cons.mp h with h | h
  · simp at h
  · exact no_cr_S7 m h

theorem no_cr_S5 (m : MemoryMetadata) (hm : CleanMetadata m) : '\r' ∉ fmS5 m := by
  unfold fmS5
  intro h
  rcases List.mem_append.mp h with h | h
  · exact absurd h (by decide)
  rcases List.mem_cons.mp h with h | h
  · simp at h
  rcases List.mem_append.mp h with h | h
  · exact dec_no_cr _ hm.2.2.2.1.1 hm.2.2.2.1.2.2 h
  rcases List.mem_cons.mp h with h | h
  · simp at h
  · exact no_cr_S6 m hm h

theorem no_cr_S4 (m : MemoryMetadata) (hm : CleanMetadata m) : '\r' ∉ fmS4 m := by
  unfold fmS4
  intro h
  rcases List.mem_append.mp h with h | h
  · exact absurd h (by decide)
  rcases List.mem_cons.mp h with h | h
  · simp at h
  rcases List.mem_cons.mp h with h | h
  · simp at h
  rcases List.mem_append.mp h with h | h
  · exact jn_no_cr _ hm.2.2.1 h
  rcases List.mem_cons.mp h with h | h
  · simp at h
  rcases List.mem_cons.mp h with h | h
  · simp at h
  · exact no_cr_S5 m hm h

theorem no_cr_S3 (m : MemoryMetadata) (hm : CleanMetadata m) : '\r' ∉ fmS3 m := by
  unfold fmS3
  intro h
  have hq : '"' ∉ m.summary.data := fun hm2 => (hm.2.1.2.2.1 _ hm2).2.1 rfl
  rcases List.mem_append.mp h with h | h
  · exact absurd h (by decide)
  rcases List.mem_cons.mp h with h | h
  · simp at h
  rcases List.mem_append.mp h with h | h
  · exact esc_no_cr _ hq (fun c hc => (hm.2.1.2.2.1 c hc).1) h
  rcases List.mem_cons.mp h with h | h
  · simp at h
  · exact no_cr_S4 m hm h

theorem fmData_no_cr (m : MemoryMetadata) (hm : CleanMetadata m) :
    '\r' ∉ fmData m := by
  rw [fmData_S2]
  unfold fmS2
  intro h
  rcases List.mem_append.mp h with h | h
  · exact absurd h (by decide)
  rcases List.mem_cons.mp h with h | h
  · simp at h
  rcases List.mem_cons.mp h with h | h
  · simp at h
  rcases List.mem_append.mp h with h | h
  · exact jn_no_cr _ hm.1 h
  rcases List.mem_cons.mp h with h | h
  · simp at h
  rcases List.mem_cons.mp h with h | h
  · simp at h
  · exact no_cr_S3 m hm h

theorem head_S3 (m : MemoryMetadata) : (fmS3 m).head? = some 's' := rfl

theorem head_S4 (m : MemoryMetadata) : (fmS4 m).head? = some 'r' := rfl

theorem head_S5 (m : MemoryMetadata) : (fmS5 m).head? = some 'i' := rfl

theorem head_S6 (m : MemoryMetadata) : (fmS6 m).head? = some 'r' := rfl

theorem head_S7 (m : MemoryMetadata) : (fmS7 m).head? = some 'l' := rfl

theorem head_S8 (m : MemoryMetadata) : (fmS8 m).head? = some 'r' := rfl

theorem head_S9 (m : MemoryMetadata) : (fmS9 m).head? = some 's' := rfl

theorem no_nl_S9 (m : MemoryMetadata) : '\n' ∉ fmS9 m := by
  unfold fmS9
  intro h
  rcases List.mem_append.mp h with h | h
  · exact absurd h (by decide)
  · rcases List.mem_cons.mp h with h | h
    · simp at h
    · exact nat_no_nl _ h

theorem nd_S9 (m : MemoryMetadata) :
    ¬ (['\n', '-'] : List Char) <:+: fmS9 m :=
  not_infix_of_forbidden _ _ '\n' (by decide) (no_nl_S9 m)

theorem nd_S8 (m : MemoryMetadata) :
    ¬ (['\n', '-'] : List Char) <:+: fmS8 m := by
  unfold fmS8
  have h1 : ¬ (['\n', '-'] : List Char) <:+: ('\n' :: ' ' :: ' ' :: fmS9 m) := by
    show ¬ _ <:+: (['\n', ' ', ' '] ++ fmS9 m)
    exact not_infix_append_right _ _ _ (by decide) (nd_S9 m) 's' (head_S9 m)
      (by decide)
  have h2 : ¬ (['\n', '-'] : List Char) <:+:
      (natToDec m.usageStats.referenced ++ '\n' :: ' ' :: ' ' :: fmS9 m) :=
    not_infix_of_head_forbidden _ _ _ '\n' rfl (nat_no_nl _) h1
  refine not_infix_of_head_forbidden _ _ _ '\n' rfl (by decide) ?_
  show ¬ _ <:+: ([' '] ++ (natToDec m.usageStats.referenced ++
    '\n' :: ' ' :: ' ' :: fmS9 m))
  exact not_infix_of_head_forbidden _ _ _ '\n' rfl (by decide) h2

theorem nd_S7 (m : MemoryMetadata) :
    ¬ (['\n', '-'] : List Char) <:+: fmS7 m := by
  unfold fmS7
  have h1 : ¬ (['\n', '-'] : List Char) <:+: ('\n' :: ' ' :: ' ' :: fmS8 m) := by
    show ¬ _ <:+: (['\n', ' ', ' '] ++ fmS8 m)
    exact not_infix_append_right _ _ _ (by decide) (nd_S8 m) 'r' (head_S8 m)
      (by decide)
  have h2 : ¬ (['\n', '-'] : List Char) <:+:
      (natToDec m.usageStats.loaded ++ '\n' :: ' ' :: ' ' :: fmS8 m) :=
    not_infix_of_head_forbidden _ _ _ '\n' rfl (nat_no_nl _) h1
  refine not_infix_of_head_forbidden _ _ _ '\n' rfl (by decide) ?_
  show ¬ _ <:+: ([' '] ++ (natToDec m.usageStats.loaded ++
    '\n' :: ' ' :: ' ' :: fmS8 m))
  exact not_infix_of_head_forbidden _ _ _ '\n' rfl (by decide) h2

theorem nd_S6 (m : MemoryMetadata) (hm : CleanMetadata m) :
    ¬ (['\n', '-'] : List Char) <:+: fmS6 m := by
  unfold fmS6
  have h1 : ¬ (['\n', '-'] : List Char) <:+: ('\n' :: ' ' :: ' ' :: fmS7 m) := by
    show ¬ _ <:+: (['\n', ' ', ' '] ++ fmS7 m)
    exact not_infix_append_right _ _ _ (by decide) (nd_S7 m) 'l' (head_S7 m)
      (by decide)
  have h2 : ¬ (['\n', '-'] : List Char) <:+:
      ("usageStats:".data ++ '\n' :: ' ' :: ' ' :: fmS7 m) :=
    not_infix_of_head_forbidden _ _ _ '\n' rfl (by decide) h1
  have h3 : ¬ (['\n', '-'] : List Char) <:+:
      ('\n' :: ("usageStats:".data ++ '\n' :: ' ' :: ' ' :: fmS7 m)) := by
    show ¬ _ <:+: (['\n'] ++ ("usageStats:".data ++ '\n' :: ' ' :: ' ' :: fmS7 m))
    exact not_infix_append_right _ _ _ (by decide) h2 'u' rfl (by decide)
  have h4 : ¬ (['\n', '-'] : List Char) <:+:
      (']' :: '\n' :: ("usageStats:".data ++ '\n' :: ' ' :: ' ' :: fmS7 m)) := by
    show ¬ _ <:+: ([']'] ++ ('\n' :: ("usageStats:".data ++
      '\n' :: ' ' :: ' ' :: fmS7 m)))
    exact not_infix_of_head_forbidden _ _ _ '\n' rfl (by decide) h3
  have h5 : ¬ (['\n', '-'] : List Char) <:+: (jnItems m.relatedFiles ++
      ']' :: '\n' :: ("usageStats:".data ++ '\n' :: ' ' :: ' ' :: fmS7 m)) :=
    not_infix_of_head_forbidden _ _ _ '\n' rfl (jn_no_nl _ hm.2.2.2.2.1) h4
  refine not_infix_of_head_forbidden _ _ _ '\n' rfl (by decide) ?_
  show ¬ _ <:+: ([' ', '['] ++ (jnItems m.relatedFiles ++
    ']' :: '\n' :: ("usageStats:".data ++ '\n' :: ' ' :: ' ' :: fmS7 m)))
  exact not_infix_of_head_forbidden _ _ _ '\n' rfl (by decide) h5

theorem nd_S5 (m : MemoryMetadata) (hm : CleanMetadata m) :
    ¬ (['\n', '-'] : List Char) <:+: fmS5 m := by
  unfold fmS5
  have h1 : ¬ (['\n', '-'] : List Char) <:+: ('\n' :: fmS6 m) := by
    show ¬ _ <:+: (['\n'] ++ fmS6 m)
    exact not_infix_append_right _ _ _ (by decide) (nd_S6 m hm) 'r' (head_S6 m)
      (by decide)
  have h2 : ¬ (['\n', '-'] : List Char) <:+:
      (ratToDec m.importance ++ '\n' :: fmS6 m) :=
    not_infix_of_head_forbidden _ _ _ '\n' rfl
      (dec_no_nl _ hm.2.2.2.1.1 hm.2.2.2.1.2.2) h1
  refine not_infix_of_head_forbidden _ _ _ '\n' rfl (by decide) ?_
  show ¬ _ <:+: ([' '] ++ (ratToDec m.importance ++ '\n' :: fmS6 m))
  exact not_infix_of_head_forbidden _ _ _ '\n' rfl (by decide) h2

theorem nd_S4 (m : MemoryMetadata) (hm : CleanMetadata m) :
    ¬ (['\n', '-'] : List Char) <:+: fmS4 m := by
  unfold fmS4
  have h1 : ¬ (['\n', '-'] : List Char) <:+: ('\n' :: fmS5 m) := by
    show ¬ _ <:+: (['\n'] ++ fmS5 m)
    exact not_infix_append_right _ _ _ (by decide) (nd_S5 m hm) 'i' (head_S5 m)
      (by decide)
  have h4 : ¬ (['\n', '-'] : List Char) <:+: (']' :: '\n' :: fmS5 m) := by
    show ¬ _ <:+: ([']'] ++ ('\n' :: fmS5 m))
    exact not_infix_of_head_forbidden _ _ _ '\n' rfl (by decide) h1
  have h5 : ¬ (['\n', '-'] : List Char) <:+:
      (jnItems m.relevantTo ++ ']' :: '\n' :: fmS5 m) :=
    not_infix_of_head_forbidden _ _ _ '\n' rfl (jn_no_nl _ hm.2.2.1) h4
  refine not_infix_of_head_forbidden _ _ _ '\n' rfl (by decide) ?_
  show ¬ _ <:+: ([' ', '['] ++ (jnItems m.relevantTo ++ ']' :: '\n' :: fmS5 m))
  exact not_infix_of_head_forbidden _ _ _ '\n' rfl (by decide) h5

theorem nd_S3 (m : MemoryMetadata) (hm : CleanMetadata m) :
    ¬ (['\n', '-'] : List Char) <:+: fmS3 m := by
  unfold fmS3
  have hq : '"' ∉ m.summary.data := fun hm2 => (hm.2.1.2.2.1 _ hm2).2.1 rfl
  have h1 : ¬ (['\n', '-'] : List Char) <:+: ('\n' :: fmS4 m) := by
    show ¬ _ <:+: (['\n'] ++ fmS4 m)
    exact not_infix_append_right _ _ _ (by decide) (nd_S4 m hm) 'r' (head_S4 m)
      (by decide)
  have h2 : ¬ (['\n', '-'] : List Char) <:+:
      ((escapeYamlString m.summary).data ++ '\n' :: fmS4 m) :=
    not_infix_of_head_forbidden _ _ _ '\n' rfl
      (esc_no_nl _ hq (fun c hc => (hm.2.1.2.2.1 c hc).1)) h1
  refine not_infix_of_head_forbidden _ _ _ '\n' rfl (by decide) ?_
  show ¬ _ <:+: ([' '] ++ ((escapeYamlString m.summary).data ++ '\n' :: fmS4 m))
  exact not_infix_of_head_forbidden _ _ _ '\n' rfl (by decide) h2

theorem fmData_no_nd (m : MemoryMetadata) (hm : CleanMetadata m) :
    ¬ (['\n', '-'] : List Char) <:+: fmData m := by
  rw [fmData_S2]
  unfold fmS2
  have h1 : ¬ (['\n', '-'] : List Char) <:+: ('\n' :: fmS3 m) := by
    show ¬ _ <:+: (['\n'] ++ fmS3 m)
    exact not_infix_append_right _ _ _ (by decide) (nd_S3 m hm) 's' (head_S3 m)
      (by decide)
  have h4 : ¬ (['\n', '-'] : List Char) <:+: (']' :: '\n' :: fmS3 m) := by
    show ¬ _ <:+: ([']'] ++ ('\n' :: fmS3 m))
    exact not_infix_of_head_forbidden _ _ _ '\n' rfl (by decide) h1
  have h5 : ¬ (['\n', '-'] : List Char) <:+:
      (jnItems m.tags ++ ']' :: '\n' :: fmS3 m) :=
    not_infix_of_head_forbidden _ _ _ '\n' rfl (jn_no_nl _ hm.1) h4
  refine not_infix_of_head_forbidden _ _ _ '\n' rfl (by decide) ?_
  show ¬ _ <:+: ([' ', '['] ++ (jnItems m.tags ++ ']' :: '\n' :: fmS3 m))
  exact not_infix_of_head_forbidden _ _ _ '\n' rfl (by decide) h5

theorem openEnds_one (t0 : List Char)
    (h : ∀ c, t0.head? = some c → isJsWS c = false) :
    openEnds ('\n' :: t0) = [1] := by
  unfold openEnds
  have hw : wsRunLen ('\n' :: t0) = 1 := by
    show (if isJsWS '\n' then wsRunLen t0 + 1 else 0) = 1
    rw [if_pos (by decide)]
    cases t0 with
    | nil => rfl
    | cons c t =>
      show (if isJsWS c then wsRunLen t + 1 else 0) + 1 = 1
      rw [if_neg (by simp [h c rfl])]
  rw [hw]
  rfl

theorem tryOpens_single (r0 : List Char) (j n : Nat)
    (hf : findClose r0 = some (j, n)) :
    tryOpens ('\n' :: r0) [1] = some (r0.take j, r0.drop (j + n)) := by
  show (match findClose r0 with
    | some jc => some ((r0.take jc.1, r0.drop (jc.1 + jc.2)))
    | none => tryOpens ('\n' :: r0) []) = _
  rw [hf]

theorem serialize_data (m : MemoryMetadata) (body : String) :
    (serializeFrontmatter m ++ "\n" ++ body).data =
      '-' :: '-' :: '-' :: '\n' ::
        (fmData m ++ '\n' :: '-' :: '-' :: '-' :: '\n' :: body.data) := by
  simp only [serializeFrontmatter, fmData, jnItems, String.data_append,
    List.append_assoc, List.cons_append]
  rfl

theorem matchFrontmatter_ser (m : MemoryMetadata) (body : String)
    (hm : CleanMetadata m) (hb : BodyOk body) :
    matchFrontmatterL (serializeFrontmatter m ++ "\n" ++ body).data =
      some (fmData m, body.data) := by
  rw [serialize_data]
  show tryOpens
    ('\n' :: (fmData m ++ '\n' :: '-' :: '-' :: '-' :: '\n' :: body.data))
    (openEnds
      ('\n' :: (fmData m ++ '\n' :: '-' :: '-' :: '-' :: '\n' :: body.data))) = _
  rw [openEnds_one (fmData m ++ '\n' :: '-' :: '-' :: '-' :: '\n' :: body.data)
    (fun c hc => by
      have h't : (fmData m ++
          '\n' :: '-' :: '-' :: '-' :: '\n' :: body.data).head? = some 't' := rfl
      rw [h't] at hc
      obtain rfl : 't' = c := by simpa using hc
      decide)]
  have hf : findClose (fmData m ++ '\n' :: '-' :: '-' :: '-' :: '\n' :: body.data) =
      some ((fmData m).length, 5) :=
    findClose_prefix (fmData m) ('\n' :: body.data) 5
      (closeHere_CL body.data hb) (fmData_no_cr m hm) (fmData_no_nd m hm)
  rw [tryOpens_single _ _ _ hf]
  rw [List.take_left, ← List.drop_drop, List.drop_left]
  rfl

/-- C1 (corrected): the frontmatter round trip
`parseFrontmatter (serializeFrontmatter m ++ "\n" ++ body) = (m, body)` does
not hold for every codec-producible metadata and body (see
`frontmatter_roundtrip_counterexample`: a body starting with a blank line is
truncated, and an empty summary — the default, hence producible — derails
the summary field regex).  It does hold on the restricted class
`CleanMetadata`/`BodyOk`: list items and the summary nonempty, trimmed,
single-line, free of quotes, commas, closing brackets and of the eight field
keywords; importance a terminating decimal of at most six places within
[0, 1]; counters below 2^53; and a body whose leading whitespace run has no
newline. -/
theorem frontmatter_roundtrip (m : MemoryMetadata) (body : String)
    (hm : CleanMetadata m) (hb : BodyOk body) :
    parseFrontmatter (serializeFrontmatter m ++ "\n" ++ body) = (m, body) := by
  unfold parseFrontmatter
  rw [matchFrontmatter_ser m body hm hb]
  dsimp only
  rw [parseFields_fmData m hm]

/-- Witness for C1's corrected round trip: a concrete metadata value and
body satisfying the hypotheses, on which the round trip is exact. -/
theorem frontmatter_roundtrip_witness :
    CleanMetadata
      { tags := ["api", "auth"], summary := "Auth flow notes",
        relevantTo := ["login"], importance := 0.7,
        relatedFiles := ["auth.md"],
        usageStats := { loaded := 3, referenced := 2, successfulFeatures := 1 } } ∧
    BodyOk "Remember the token refresh." ∧
    parseFrontmatter (serializeFrontmatter
      { tags := ["api", "auth"], summary := "Auth flow notes",
        relevantTo := ["login"], importance := 0.7,
        relatedFiles := ["auth.md"],
        usageStats := { loaded := 3, referenced := 2, successfulFeatures := 1 } } ++
      "\n" ++ "Remember the token refresh.") =
      ({ tags := ["api", "auth"], summary := "Auth flow notes",
         relevantTo := ["login"], importance := 0.7,
         relatedFiles := ["auth.md"],
         usageStats := { loaded := 3, referenced := 2, successfulFeatures := 1 } },
       "Remember the token refresh.") :=
  ⟨by unfold CleanMetadata CleanSummary CleanItem CleanImportance CleanStats
      exact ⟨by decide, by decide, by decide, by decide, by decide, by decide⟩,
   by unfold BodyOk; decide,
   frontmatter_roundtrip _ _
     (by unfold CleanMetadata CleanSummary CleanItem CleanImportance CleanStats
         exact ⟨by decide, by decide, by decide, by decide, by decide, by decide⟩)
     (by unfold BodyOk; decide)⟩
